import Mathlib

/-!
Verification development for the scan-pattern geometry engine of
`copylot/assemblies/photom/utils/pattern_tracing.py` (class `ShapeTrace`)
and its caller `onApplyPatternClick` in
`copylot/assemblies/photom/gui/windows.py`.

The shallow embedding below mirrors the Python/Qt code:

* `ShapeTrace` is a `QPolygon` of integer points (`QPoint`), so a polygon is
  a `List (ℤ × ℤ)`.
* `containsPoint poly p` embeds Qt `QPolygon::containsPoint(p, Qt.OddEvenFill)`:
  for every non-horizontal edge, after ordering the endpoints by `y`
  (direction `±1`), the edge contributes its direction to the winding number
  when `y1 ≤ p.y < y2` and the `x`-intersection of the scanline through `p.y`
  lies at or left of `p.x`; the point is inside iff the winding number is odd.
  The `x`-intersection comparison is stated exactly, cross-multiplied by
  `y2 - y1 > 0` (for the integer polygons of the claims, all edges are
  axis-parallel, where Qt evaluates this exactly as well).
* `boundingRect` follows `QRect` built from the min/max corners:
  `left/top` are the minima, `right/bottom` the maxima, and `width/height`
  are `max - min + 1` (the Qt integer-rectangle convention).
* Python `round((min+max)/2)` is exact: the sum is an integer, division by 2
  is exact in binary floating point, and `round` ties to even
  (`halfRoundEven`).
* `_pattern_bidirectional` is the BFS lattice expansion from the rounded
  bounding-box midpoint, with the two spacing clamps (warning strings are
  collected in a list, mirroring `logging.warning` calls) and the
  empty-result fallback.  The `while` loop is given fuel; `none` means the
  fuel ran out before the loop finished, so every `some` value is the exact
  result of the Python loop.
-/

abbrev Pt := ℤ × ℤ

/-- Qt `qt_polygon_isect_line`: the contribution of edge `(a, b)` to the
winding number at `pos`.  Horizontal edges are ignored; otherwise the edge is
reoriented upwards (direction `-1` when flipped) and contributes when the scan
line through `pos.2` meets it at or left of `pos.1`. -/
def isectWinding (pos a b : Pt) : ℤ :=
  if a.2 = b.2 then 0
  else
    let x1 : ℤ := if b.2 < a.2 then b.1 else a.1
    let y1 : ℤ := if b.2 < a.2 then b.2 else a.2
    let x2 : ℤ := if b.2 < a.2 then a.1 else b.1
    let y2 : ℤ := if b.2 < a.2 then a.2 else b.2
    let dir : ℤ := if b.2 < a.2 then -1 else 1
    if y1 ≤ pos.2 ∧ pos.2 < y2 ∧
        x1 * (y2 - y1) + (x2 - x1) * (pos.2 - y1) ≤ pos.1 * (y2 - y1) then
      dir
    else 0

/-- Winding number of the closed polygon at `pos`: edges are the consecutive
pairs plus the closing edge back to the first vertex (Qt adds the closing edge
when last ≠ first; when last = first the extra edge is degenerate, hence
horizontal, and contributes 0, so adding it unconditionally is equivalent). -/
def windingNumber (poly : List Pt) (pos : Pt) : ℤ :=
  (poly.zip (poly.rotate 1)).foldl (fun w e => w + isectWinding pos e.1 e.2) 0

/-- Qt `QPolygon::containsPoint(pos, Qt.OddEvenFill)`: false for the empty
polygon, else odd winding number. -/
def containsPoint (poly : List Pt) (pos : Pt) : Bool :=
  !poly.isEmpty && windingNumber poly pos % 2 != 0

/-- `boundingRect().left()`: minimum x (0 for the empty polygon, as for a null
`QRect`). -/
def bbLeft (poly : List Pt) : ℤ :=
  poly.foldl (fun m p => min m p.1) poly.headI.1

/-- `boundingRect().right()`: maximum x (`-1` for the empty polygon: a null
`QRect` has `right = left + width - 1 = -1`). -/
def bbRight (poly : List Pt) : ℤ :=
  if poly.isEmpty then -1 else poly.foldl (fun m p => max m p.1) poly.headI.1

/-- `boundingRect().top()`: minimum y. -/
def bbTop (poly : List Pt) : ℤ :=
  poly.foldl (fun m p => min m p.2) poly.headI.2

/-- `boundingRect().bottom()`: maximum y (`-1` for the empty polygon). -/
def bbBottom (poly : List Pt) : ℤ :=
  if poly.isEmpty then -1 else poly.foldl (fun m p => max m p.2) poly.headI.2

/-- `boundingRect().width()` = `right - left + 1` (Qt integer rectangles). -/
def bbWidth (poly : List Pt) : ℤ := bbRight poly - bbLeft poly + 1

/-- `boundingRect().height()` = `bottom - top + 1`. -/
def bbHeight (poly : List Pt) : ℤ := bbBottom poly - bbTop poly + 1

/-- Python `round(s / 2)` for an integer `s`: `s / 2` is exact in floating
point and `round` ties to even. -/
def halfRoundEven (s : ℤ) : ℤ :=
  if s % 2 = 0 then s / 2
  else
    let m := (s - 1) / 2
    if m % 2 = 0 then m else m + 1

/-- `center_x = round((min_x + max_x) / 2)`, `center_y` likewise. -/
def bbCenter (poly : List Pt) : Pt :=
  (halfRoundEven (bbLeft poly + bbRight poly),
   halfRoundEven (bbTop poly + bbBottom poly))

/-- `self.gap` as set in `ShapeTrace.__init__`. -/
def shapeGap : ℤ := 5

/-- The `while` guard `num_points is None or len(self.ablation_points) < num_points`. -/
def numOk (n : Option ℤ) (len : ℕ) : Bool :=
  match n with
  | none => true
  | some k => (len : ℤ) < k

/-- One neighbour scan: `for dx, dy in directions`, enqueueing (and marking
visited) each neighbour that is inside the polygon and not yet visited.
The pair carries (queue, visited). -/
def scanNeighbors (poly : List Pt) (dirs : List Pt) (p : Pt)
    (qv : List Pt × List Pt) : List Pt × List Pt :=
  dirs.foldl
    (fun qv d =>
      let np : Pt := (p.1 + d.1, p.2 + d.2)
      if containsPoint poly np && !(qv.2.contains np) then
        (qv.1 ++ [np], qv.2 ++ [np])
      else qv)
    qv

/-- The BFS `while` loop of `_pattern_bidirectional`, with fuel.  `none`
means the fuel was exhausted while the loop guard still held; every `some`
result is the list the Python loop leaves in `self.ablation_points`. -/
def bfsLoop (poly : List Pt) (v h : ℤ) (n : Option ℤ) :
    ℕ → List Pt → List Pt → List Pt → Option (List Pt)
  | _, [], _, acc => some acc
  | fuel, p :: rest, visited, acc =>
    if numOk n acc.length then
      match fuel with
      | 0 => none
      | f + 1 =>
        let qv := scanNeighbors poly [(0, -v), (h, 0), (0, v), (-h, 0)] p
          (rest, visited)
        bfsLoop poly v h n f qv.1 qv.2 (acc ++ [p])
    else some acc

def horizWarning : String :=
  "horizontal spacing is too small for the gap. defaulting to gap (5)."

def vertWarning : String :=
  "vertical spacing is too small for the gap. defaulting to gap (5)."

def fallbackWarning : String := "spacing configuration is too large for the shape."

/-- `ShapeTrace._pattern_bidirectional(vertical_spacing, horizontal_spacing,
num_points)`.  `abl0` is the content of `self.ablation_points` on entry (the
GUI always clears it to `[]` first).  Returns the final `ablation_points`
together with the list of emitted `logging.warning` messages, or `none` if
the fuel did not cover the BFS loop. -/
def pattern_bidirectional (poly : List Pt) (vertical horizontal : ℤ)
    (n : Option ℤ) (abl0 : List Pt) (fuel : ℕ) :
    Option (List Pt × List String) :=
  let hWarn := horizontal < shapeGap
  let h := if horizontal < shapeGap then shapeGap else horizontal
  let vWarn := vertical < shapeGap
  let v := if vertical < shapeGap then shapeGap else vertical
  let warns := (if hWarn then [horizWarning] else []) ++
    (if vWarn then [vertWarning] else [])
  let c := bbCenter poly
  match bfsLoop poly v h n fuel [c] [c] abl0 with
  | none => none
  | some l =>
    if l.isEmpty then some ([c], warns ++ [fallbackWarning])
    else some (l, warns)

/-- The four concrete polygons used by the claims. -/
def sq100 : List Pt := [(0, 0), (100, 0), (100, 100), (0, 100)]

def tenSq : List Pt := [(0, 0), (10, 0), (10, 10), (0, 10)]

def twoPt : List Pt := [(0, 0), (10, 0)]

/-- A U-shaped (non-convex) polygon: a 30×30 square with a slot of width 4
(x from 13 to 17) cut from `y = 5` down to the bottom edge `y = 30`.  Its
bounding-box midpoint `(15, 15)` lies in the slot, outside the polygon. -/
def uPoly : List Pt :=
  [(0, 0), (30, 0), (30, 30), (17, 30), (17, 5), (13, 5), (13, 30), (0, 30)]

/-- A 10^6-sized square, used for the spiral claims. -/
def bigN : ℤ := 1000000

def bigSq : List Pt := [(0, 0), (bigN, 0), (bigN, bigN), (0, bigN)]

/-!
## The spiral generator `ShapeTrace._pattern_spiral`

The turn-count selection loop works on exact numbers (`max_radius` is
`min(width, height) / 2` of an integer bounding box), so it is embedded over
`ℚ`, with fuel: a `none` result means the `while` loop did not finish within
the fuel — and, since the loop body strictly decreases `max_radius / turns`,
never finishes at all once entered.

The sampling pipeline (`np.linspace`, `cos`/`sin`, normalisation, arc
lengths) is numpy double-precision arithmetic; it is embedded over `ℝ`
(exact reals idealise the doubles; every fact proved about the samples below
holds with margins vastly exceeding double rounding error).  Python `int()`
truncates toward zero (`pyInt`).
-/

/-- The loop `while distance_bt_turns < self.gap: num_turns += 1; ...`,
starting from `num_turns = 4`, with fuel. -/
def turnsLoop (maxR gapQ : ℚ) : ℕ → ℕ → Option ℕ
  | 0, turns => if maxR / turns < gapQ then none else some turns
  | fuel + 1, turns =>
    if maxR / turns < gapQ then turnsLoop maxR gapQ fuel (turns + 1)
    else some turns

/-- `max_radius = min(width, height) / 2`. -/
def maxRadiusQ (poly : List Pt) : ℚ :=
  (min (bbWidth poly) (bbHeight poly) : ℚ) / 2

/-- `theta = np.linspace(0, num_turns * np.pi, 1000)`, sample `k`. -/
noncomputable def thetaAt (turns k : ℕ) : ℝ :=
  (turns : ℝ) * Real.pi * k / 999

/-- `x = radius * np.cos(theta)` with `radius = theta`, sample `k`. -/
noncomputable def rawX (turns k : ℕ) : ℝ :=
  thetaAt turns k * Real.cos (thetaAt turns k)

/-- `y = radius * np.sin(theta)`, sample `k`. -/
noncomputable def rawY (turns k : ℕ) : ℝ :=
  thetaAt turns k * Real.sin (thetaAt turns k)

/-- Minimum of a list of reals, as numpy `.min()` on a nonempty array. -/
noncomputable def listMin (l : List ℝ) : ℝ := l.foldl min l.headI

/-- Maximum of a list of reals, as numpy `.max()`. -/
noncomputable def listMax (l : List ℝ) : ℝ := l.foldl max l.headI

noncomputable def rawXs (turns : ℕ) : List ℝ := (List.range 1000).map (rawX turns)

noncomputable def rawYs (turns : ℕ) : List ℝ := (List.range 1000).map (rawY turns)

/-- `x = (x - x.min()) / (x.max() - x.min()) * width`, sample `k`. -/
noncomputable def normX (poly : List Pt) (turns k : ℕ) : ℝ :=
  (rawX turns k - listMin (rawXs turns)) /
    (listMax (rawXs turns) - listMin (rawXs turns)) * (bbWidth poly : ℝ)

/-- `y = (y - y.min()) / (y.max() - y.min()) * height`, sample `k`. -/
noncomputable def normY (poly : List Pt) (turns k : ℕ) : ℝ :=
  (rawY turns k - listMin (rawYs turns)) /
    (listMax (rawYs turns) - listMin (rawYs turns)) * (bbHeight poly : ℝ)

/-- Python `int()`: truncation toward zero. -/
noncomputable def pyInt (x : ℝ) : ℤ := if 0 ≤ x then ⌊x⌋ else -⌊-x⌋

/-- `point = QPoint(int(x[idx]) + left, int(y[idx]) + top)`. -/
noncomputable def spiralPt (poly : List Pt) (turns k : ℕ) : Pt :=
  (pyInt (normX poly turns k) + bbLeft poly,
   pyInt (normY poly turns k) + bbTop poly)

/-- Length of curve segment `k → k+1` after normalisation
(`np.sqrt(np.diff(x) ** 2 + np.diff(y) ** 2)`). -/
noncomputable def segLen (poly : List Pt) (turns k : ℕ) : ℝ :=
  Real.sqrt ((normX poly turns (k + 1) - normX poly turns k) ^ 2 +
    (normY poly turns (k + 1) - normY poly turns k) ^ 2)

/-- `arc_length` with the leading 0 inserted: entry `k` is the cumulative
length of the first `k` segments. -/
noncomputable def arcAt (poly : List Pt) (turns k : ℕ) : ℝ :=
  ∑ i ∈ Finset.range k, segLen poly turns i

noncomputable def arcList (poly : List Pt) (turns : ℕ) : List ℝ :=
  (List.range 1000).map (arcAt poly turns)

/-- `total_length = arc_length[-1]`. -/
noncomputable def totalLen (poly : List Pt) (turns : ℕ) : ℝ :=
  arcAt poly turns 999

/-- `max_num_points = int(total_length // self.gap)`. -/
noncomputable def maxNumPts (poly : List Pt) (turns : ℕ) : ℤ :=
  ⌊totalLen poly turns / 5⌋

/-- `np.linspace(0, t, num)`: for `num = 0` the empty array, for `num = 1`
just `[0]` (the start), else `num` equally spaced values ending at `t`.
(The `num = 1` case falls out of the formula because Lean division by zero
is zero.) -/
noncomputable def linspaceR (t : ℝ) (num : ℕ) : List ℝ :=
  (List.range num).map (fun k : ℕ => t * (k : ℝ) / ((num - 1 : ℕ) : ℝ))

open scoped Classical

/-- `np.searchsorted(arc_length, v)` (left side) for the sorted cumulative
arc-length array: the number of leading entries strictly below `v`. -/
noncomputable def searchSorted (poly : List Pt) (turns : ℕ) (v : ℝ) : ℕ :=
  ((arcList poly turns).takeWhile (fun a => decide (a < v))).length

/-- `indices = np.searchsorted(arc_length, np.linspace(0, total_length, num))`. -/
noncomputable def spiralIdxs (poly : List Pt) (turns num : ℕ) : List ℕ :=
  (linspaceR (totalLen poly turns) num).map (searchSorted poly turns)

def spiralClampMsg : String :=
  "num_points is greater than max_num_points, defaulting to max_num_points."

def noneCompareMsg : String :=
  "TypeError: unsupported comparison between NoneType and int"

def negSamplesMsg : String :=
  "ValueError: number of samples must be nonnegative"

/-- The body of `_pattern_spiral` after the turn-count loop, given a
non-`None` `num_points = k`: clamp to `max_num_points` (with the printed
message), fail like `np.linspace` does if the resulting count is negative,
then bucket each of the 1000 samples: selected indices that pass the
containment test go to `ablation_points`, unselected ones that pass go to
`pattern_points`.  Results are the two appended lists plus messages. -/
noncomputable def spiralCore (poly : List Pt) (turns : ℕ) (k : ℤ) :
    Except String (List Pt × List Pt × List String) :=
  let mnp := maxNumPts poly turns
  let warns := if k > mnp then [spiralClampMsg] else []
  let k2 := if k > mnp then mnp else k
  if k2 < 0 then .error negSamplesMsg
  else
    let idxs := spiralIdxs poly turns k2.toNat
    .ok
      (((List.range 1000).filter
          (fun i => idxs.contains i && containsPoint poly (spiralPt poly turns i))).map
        (spiralPt poly turns),
       ((List.range 1000).filter
          (fun i => !idxs.contains i && containsPoint poly (spiralPt poly turns i))).map
        (spiralPt poly turns),
       warns)

/-- `ShapeTrace._pattern_spiral(num_points)`.  `none` (outer) means the
turn-count loop did not finish within the fuel; `.error` embeds a raised
Python exception: `num_points=None` reaches `num_points > max_num_points`
and raises `TypeError`.  On success, the value is
(`ablation_points` delta, `pattern_points` delta, messages). -/
noncomputable def pattern_spiral (poly : List Pt) (n : Option ℤ) (fuel : ℕ) :
    Option (Except String (List Pt × List Pt × List String)) :=
  match turnsLoop (maxRadiusQ poly) 5 fuel 4 with
  | none => none
  | some turns =>
    match n with
    | none => some (.error noneCompareMsg)
    | some k => some (spiralCore poly turns k)

/-!
## The GUI layer `onApplyPatternClick` (windows.py)

For `Bidirectional`, the handler sets `shape.pattern_points = []` and
`shape.ablation_points = []` before calling `_pattern_bidirectional`.  For
`Spiral`, it calls only `shape.ablation_points.clear()` — `pattern_points`
is NOT cleared — before calling `_pattern_spiral`, which appends to both
lists.
-/

structure PhotomState where
  pattern_points : List Pt
  ablation_points : List Pt
deriving DecidableEq

/-- The `Bidirectional` branch of `onApplyPatternClick` acting on a shape
state. -/
def onApplyBidirectional (poly : List Pt) (v h : ℤ) (n : Option ℤ)
    (fuel : ℕ) (_s : PhotomState) : Option PhotomState :=
  (pattern_bidirectional poly v h n [] fuel).map (fun r => ⟨[], r.1⟩)

/-- The `Spiral` branch of `onApplyPatternClick` acting on a shape state:
`ablation_points` is cleared and rebuilt, `pattern_points` keeps its old
content and the spiral appends to it.  A raised `TypeError`/`ValueError`
propagates (the handler catches only `ValueError` from `int(...)` parsing). -/
noncomputable def onApplySpiral (poly : List Pt) (n : Option ℤ) (fuel : ℕ)
    (s : PhotomState) : Option (Except String PhotomState) :=
  match pattern_spiral poly n fuel with
  | none => none
  | some (.error e) => some (.error e)
  | some (.ok r) => some (.ok ⟨s.pattern_points ++ r.2.1, r.1⟩)

/-- Iterable wrapper: normal completion threads the state, exhaustion or an
exception collapses to `none`. -/
noncomputable def stepSpiral (poly : List Pt) (n : Option ℤ) (fuel : ℕ)
    (s : Option PhotomState) : Option PhotomState :=
  s.bind fun st =>
    match onApplySpiral poly n fuel st with
    | some (.ok s2) => some s2
    | _ => none

/-!  Named runs used by the concrete claims. -/

/-- Bidirectional run on the 100×100 square, spacing 10/10. -/
def sqRun : Option (List Pt × List String) :=
  pattern_bidirectional sq100 10 10 none [] 2000

def sqAbl : List Pt := (sqRun.getD ([], [])).1

/-- Bidirectional run on the U-shaped polygon, spacing 5/5. -/
def uRun : Option (List Pt × List String) :=
  pattern_bidirectional uPoly 5 5 none [] 2000

def uAbl : List Pt := (uRun.getD ([], [])).1

/-- Bidirectional run on the 10×10 square with spacing 1000. -/
def tenRun : Option (List Pt × List String) :=
  pattern_bidirectional tenSq 1000 1000 none [] 10

/-- The `ablation_points` delta of the spiral run on the 10^6 square with
`num_points = 1` (whose index set is `[0]`; established below). -/
noncomputable def bigSpiralAbl : List Pt :=
  ((List.range 1000).filter
    (fun i => ([0] : List ℕ).contains i &&
      containsPoint bigSq (spiralPt bigSq 4 i))).map (spiralPt bigSq 4)

/-- The `pattern_points` delta of the same run. -/
noncomputable def bigSpiralPat : List Pt :=
  ((List.range 1000).filter
    (fun i => !([0] : List ℕ).contains i &&
      containsPoint bigSq (spiralPt bigSq 4 i))).map (spiralPt bigSq 4)

/-- The selected index set of the spiral run on the 100×100 square with
`num_points = 50`. -/
noncomputable def sqSpiralIdxs : List ℕ := spiralIdxs sq100 4 50

/-- The `ablation_points` delta of the spiral run on the 100×100 square with
`num_points = 50` (claim C8). -/
noncomputable def sqSpiralAbl : List Pt :=
  ((List.range 1000).filter
    (fun i => sqSpiralIdxs.contains i &&
      containsPoint sq100 (spiralPt sq100 4 i))).map (spiralPt sq100 4)

/-- The `pattern_points` delta of the same run. -/
noncomputable def sqSpiralPat : List Pt :=
  ((List.range 1000).filter
    (fun i => !sqSpiralIdxs.contains i &&
      containsPoint sq100 (spiralPt sq100 4 i))).map (spiralPt sq100 4)

/-- The value of `sqAbl`, written out (established by kernel evaluation in
`sqRun_eq` below). -/
def sqAblLit : List Pt :=
  [(50, 50), (50, 40), (60, 50), (50, 60), (40, 50), (50, 30), (60, 40),
   (40, 40), (70, 50), (60, 60), (50, 70), (40, 60), (30, 50), (50, 20),
   (60, 30), (40, 30), (70, 40), (30, 40), (80, 50), (70, 60), (60, 70),
   (50, 80), (40, 70), (30, 60), (20, 50), (50, 10), (60, 20), (40, 20),
   (70, 30), (30, 30), (80, 40), (20, 40), (90, 50), (80, 60), (70, 70),
   (60, 80), (50, 90), (40, 80), (30, 70), (20, 60), (10, 50), (50, 0),
   (60, 10), (40, 10), (70, 20), (30, 20), (80, 30), (20, 30), (90, 40),
   (10, 40), (90, 60), (80, 70), (70, 80), (60, 90), (40, 90), (30, 80),
   (20, 70), (10, 60), (0, 50), (60, 0), (40, 0), (70, 10), (30, 10),
   (80, 20), (20, 20), (90, 30), (10, 30), (0, 40), (90, 70), (80, 80),
   (70, 90), (30, 90), (20, 80), (10, 70), (0, 60), (70, 0), (30, 0),
   (80, 10), (20, 10), (90, 20), (10, 20), (0, 30), (90, 80), (80, 90),
   (20, 90), (10, 80), (0, 70), (80, 0), (20, 0), (90, 10), (10, 10),
   (0, 20), (90, 90), (10, 90), (0, 80), (90, 0), (10, 0), (0, 10),
   (0, 90), (0, 0)]

/-- The value of `uAbl`, written out (established in `uRun_eq` below). -/
def uAblLit : List Pt :=
  [(15, 15), (20, 15), (10, 15), (20, 10), (25, 15), (20, 20), (10, 10),
   (10, 20), (5, 15), (20, 5), (25, 10), (25, 20), (20, 25), (10, 5),
   (5, 10), (10, 25), (5, 20), (0, 15), (20, 0), (25, 5), (25, 25),
   (10, 0), (5, 5), (0, 10), (5, 25), (0, 20), (25, 0), (15, 0), (5, 0),
   (0, 5), (0, 25), (0, 0)]

/-!
# Theorems

First the general lemmas about the BFS loop, then the claims.
-/

set_option maxHeartbeats 16000000

theorem sqRun_eq : sqRun = some (sqAblLit, []) := by decide

theorem uRun_eq : uRun = some (uAblLit, []) := by decide

theorem sqAbl_eq : sqAbl = sqAblLit := by
  rw [sqAbl, sqRun_eq]; rfl

theorem uAbl_eq : uAbl = uAblLit := by
  rw [uAbl, uRun_eq]; rfl

/-- Whatever the BFS loop returns extends the ablation list it started
from. -/
theorem bfsLoop_prefix (poly : List Pt) (v h : ℤ) (n : Option ℤ) :
    ∀ (fuel : ℕ) (q vis acc l : List Pt),
      bfsLoop poly v h n fuel q vis acc = some l → acc <+: l := by
  intro fuel
  induction fuel with
  | zero =>
    intro q vis acc l hq
    cases q with
    | nil =>
      simp only [bfsLoop, Option.some.injEq] at hq
      exact hq ▸ List.prefix_rfl
    | cons p rest =>
      simp only [bfsLoop] at hq
      by_cases hok : numOk n acc.length
      · simp [hok] at hq
      · simp only [hok, Bool.false_eq_true, if_false, Option.some.injEq] at hq
        exact hq ▸ List.prefix_rfl
  | succ f ih =>
    intro q vis acc l hq
    cases q with
    | nil =>
      simp only [bfsLoop, Option.some.injEq] at hq
      exact hq ▸ List.prefix_rfl
    | cons p rest =>
      simp only [bfsLoop] at hq
      by_cases hok : numOk n acc.length
      · simp only [hok, if_true] at hq
        have h2 := ih _ _ _ _ hq
        exact List.IsPrefix.trans ⟨[p], rfl⟩ h2
      · simp only [hok, Bool.false_eq_true, if_false, Option.some.injEq] at hq
        exact hq ▸ List.prefix_rfl

/-- Every point the neighbour scan adds to the queue passed the containment
test. -/
theorem scanNeighbors_fst_mem (poly : List Pt) (p x : Pt) :
    ∀ (dirs : List Pt) (qv : List Pt × List Pt),
      x ∈ (scanNeighbors poly dirs p qv).1 →
      x ∈ qv.1 ∨ containsPoint poly x = true := by
  intro dirs
  induction dirs with
  | nil => intro qv hx; exact Or.inl hx
  | cons d ds ih =>
    intro qv hx
    rw [scanNeighbors] at hx
    simp only [List.foldl_cons] at hx
    rcases ih _ hx with hmem | hcont
    · by_cases hc : containsPoint poly (p.1 + d.1, p.2 + d.2) &&
        !(qv.2.contains (p.1 + d.1, p.2 + d.2))
      · simp only [hc, if_true] at hmem
        rcases List.mem_append.1 hmem with hl | hr
        · exact Or.inl hl
        · right
          have hx2 : x = (p.1 + d.1, p.2 + d.2) := by simpa using hr
          subst hx2
          exact ((Bool.and_eq_true _ _).mp hc).1
      · simp only [hc, if_false] at hmem
        exact Or.inl hmem
    · exact Or.inr hcont

/-- Invariant of the BFS loop: if every queued point and every accumulated
point satisfies `P`, and every containment-passing point satisfies `P`, then
every output point satisfies `P`. -/
theorem bfsLoop_mem (poly : List Pt) (v h : ℤ) (n : Option ℤ)
    (P : Pt → Prop) (hP : ∀ x, containsPoint poly x = true → P x) :
    ∀ (fuel : ℕ) (q vis acc l : List Pt),
      (∀ x ∈ q, P x) → (∀ x ∈ acc, P x) →
      bfsLoop poly v h n fuel q vis acc = some l → ∀ x ∈ l, P x := by
  intro fuel
  induction fuel with
  | zero =>
    intro q vis acc l hq hacc hres
    cases q with
    | nil =>
      simp only [bfsLoop, Option.some.injEq] at hres
      exact hres ▸ hacc
    | cons p rest =>
      simp only [bfsLoop] at hres
      by_cases hok : numOk n acc.length
      · simp [hok] at hres
      · simp only [hok, Bool.false_eq_true, if_false, Option.some.injEq] at hres
        exact hres ▸ hacc
  | succ f ih =>
    intro q vis acc l hq hacc hres
    cases q with
    | nil =>
      simp only [bfsLoop, Option.some.injEq] at hres
      exact hres ▸ hacc
    | cons p rest =>
      simp only [bfsLoop] at hres
      by_cases hok : numOk n acc.length
      · simp only [hok, if_true] at hres
        refine ih _ _ _ _ ?_ ?_ hres
        · intro x hx
          rcases scanNeighbors_fst_mem poly p x _ _ hx with hmem | hcont
          · exact hq x (List.mem_cons_of_mem _ hmem)
          · exact hP x hcont
        · intro x hx
          rcases List.mem_append.1 hx with hl | hr
          · exact hacc x hl
          · have hx2 : x = p := by simpa using hr
            exact hx2 ▸ hq p (List.mem_cons_self p rest)
      · simp only [hok, Bool.false_eq_true, if_false, Option.some.injEq] at hres
        exact hres ▸ hacc

/-- Started on the singleton queue `[c]` with an empty ablation list, a
nonempty BFS result begins with `c`: the seed is popped and appended first,
before any containment test. -/
theorem bfsLoop_head_center (poly : List Pt) (v h : ℤ) (n : Option ℤ) (c : Pt) :
    ∀ (fuel : ℕ) (l0 : List Pt),
      bfsLoop poly v h n fuel [c] [c] [] = some l0 → l0 ≠ [] → l0.headI = c := by
  intro fuel l0 hres hne
  cases fuel with
  | zero =>
    simp only [bfsLoop, List.length_nil] at hres
    by_cases hok : numOk n 0
    · simp [hok] at hres
    · simp only [hok, Bool.false_eq_true, if_false, Option.some.injEq] at hres
      exact absurd hres.symm hne
  | succ f =>
    simp only [bfsLoop, List.length_nil] at hres
    by_cases hok : numOk n 0
    · simp only [hok, if_true, List.nil_append] at hres
      obtain ⟨t, ht⟩ := bfsLoop_prefix poly v h n f _ _ _ _ hres
      rw [← ht]
      rfl
    · simp only [hok, Bool.false_eq_true, if_false, Option.some.injEq] at hres
      exact absurd hres.symm hne

/-- If nothing in the plane passes the containment test, the neighbour scan
adds nothing. -/
theorem scanNeighbors_of_contains_false (poly : List Pt)
    (hcont : ∀ q : Pt, containsPoint poly q = false) (p : Pt) :
    ∀ (dirs : List Pt) (qv : List Pt × List Pt),
      scanNeighbors poly dirs p qv = qv := by
  intro dirs
  induction dirs with
  | nil => intro qv; rfl
  | cons d ds ih =>
    intro qv
    have hstep : scanNeighbors poly (d :: ds) p qv = scanNeighbors poly ds p qv := by
      rw [scanNeighbors, scanNeighbors, List.foldl_cons]
      congr 1
      simp [hcont]
    rw [hstep]
    exact ih qv

/-- With an empty initial ablation list, `_pattern_bidirectional` always
returns a nonempty list starting with the rounded bounding-box midpoint:
either the BFS emitted the seed first, or the empty-result fallback emitted
the same midpoint. -/
theorem pattern_bidirectional_head (poly : List Pt) (v0 h0 : ℤ)
    (n : Option ℤ) (fuel : ℕ) (l : List Pt) (w : List String)
    (hres : pattern_bidirectional poly v0 h0 n [] fuel = some (l, w)) :
    l ≠ [] ∧ l.headI = bbCenter poly := by
  simp only [pattern_bidirectional] at hres
  cases hb : bfsLoop poly (if v0 < shapeGap then shapeGap else v0)
      (if h0 < shapeGap then shapeGap else h0) n fuel
      [bbCenter poly] [bbCenter poly] [] with
  | none => rw [hb] at hres; exact absurd hres (by simp)
  | some l0 =>
    rw [hb] at hres
    by_cases he : l0.isEmpty
    · simp only [he, if_true, Option.some.injEq, Prod.mk.injEq] at hres
      refine ⟨?_, ?_⟩ <;> rw [← hres.1] <;> simp
    · simp only [he, Bool.false_eq_true, if_false, Option.some.injEq,
        Prod.mk.injEq] at hres
      have hne : l0 ≠ [] := by
        intro hnil; rw [hnil] at he; exact he rfl
      have hh := bfsLoop_head_center poly _ _ n (bbCenter poly) fuel l0 hb hne
      exact ⟨hres.1 ▸ hne, hres.1 ▸ hh⟩

/-- C10: For every polygon and every bidirectional invocation with
`num_points ≠ 0`, the first element of `ablation_points` is the rounded
bounding-box midpoint, appended without any containment test (so for a
non-convex polygon whose midpoint is outside the boundary, an out-of-polygon
point is emitted; see the witness on the U-shaped polygon). -/
theorem bidirectional_seed_is_center (poly : List Pt) (v h : ℤ)
    (n : Option ℤ) (fuel : ℕ) (l : List Pt) (w : List String)
    (_hn : n ≠ some 0)
    (hres : pattern_bidirectional poly v h n [] fuel = some (l, w)) :
    l ≠ [] ∧ l.headI = bbCenter poly :=
  pattern_bidirectional_head poly v h n fuel l w hres

/-- Witness for C10: on the U-shaped polygon the first ablation point is the
bounding-box midpoint `(15, 15)`, which fails the containment test. -/
theorem bidirectional_seed_is_center_witness :
    (uAblLit ≠ [] ∧ uAblLit.headI = bbCenter uPoly) ∧
      containsPoint uPoly (bbCenter uPoly) = false := by
  refine ⟨bidirectional_seed_is_center uPoly 5 5 none 2000 uAblLit []
    (by simp) uRun_eq, by decide⟩

/-- C9: spacing 1 is clamped to the minimum gap 5 with the two warnings, so
the point output for spacing 1/1 is identical to the output for spacing 5/5
(the result differs only by the two prepended clamp warnings). -/
theorem bidirectional_clamps_small_spacing (poly : List Pt) (n : Option ℤ)
    (abl0 : List Pt) (fuel : ℕ) :
    pattern_bidirectional poly 1 1 n abl0 fuel =
      (pattern_bidirectional poly 5 5 n abl0 fuel).map
        (fun r => (r.1, horizWarning :: vertWarning :: r.2)) := by
  simp only [pattern_bidirectional, shapeGap]
  norm_num
  cases hb : bfsLoop poly 5 5 n fuel [bbCenter poly] [bbCenter poly] abl0 with
  | none => rfl
  | some l0 => by_cases he : l0 = [] <;> simp [he]

/-- C4 (counterexample): on the 100×100 square with spacing 10/10 the
generator outputs 100 points, not the claimed 121, and the first point is
the center `(50, 50)`, not a corner of a snake sweep. -/
theorem square_bidirectional_not_snake :
    sqAbl.length = 100 ∧ ¬ sqAbl.length = 121 ∧ sqAbl.headI = (50, 50) := by
  rw [sqAbl_eq]; decide

/-- C4 (amended): on the 100×100 square with spacing 10/10 the generated
ablation points are 100 lattice points with both coordinates multiples of 10
in `[0, 90]` (the rows/columns at coordinate 100 fail the even-odd test), in
center-out BFS order starting at `(50, 50)`; no snake ordering. -/
theorem square_bidirectional_lattice :
    sqAbl.length = 100 ∧ sqAbl.headI = (50, 50) ∧
      ∀ q ∈ sqAbl, q.1 % 10 = 0 ∧ q.2 % 10 = 0 ∧
        0 ≤ q.1 ∧ q.1 ≤ 90 ∧ 0 ≤ q.2 ∧ q.2 ≤ 90 := by
  rw [sqAbl_eq]; decide

/-- Witness for C4 (amended), at the first output point `(50, 50)`. -/
theorem square_bidirectional_lattice_witness :
    (50 : ℤ) % 10 = 0 ∧ (50 : ℤ) % 10 = 0 ∧ (0 : ℤ) ≤ 50 ∧ (50 : ℤ) ≤ 90 ∧
      (0 : ℤ) ≤ 50 ∧ (50 : ℤ) ≤ 90 :=
  square_bidirectional_lattice.2.2 (50, 50) (by rw [sqAbl_eq]; decide)

/-- C7 (counterexample): on the 10×10 square with spacing 1000 the run
returns exactly the bounding-box center — but the warning list is empty:
the seed is emitted by the loop itself, so the "spacing too large" fallback
(and its warning) never fires. -/
theorem tenRun_no_warning : tenRun = some ([(5, 5)], []) := by decide

/-- C7 (amended): spacing 1000 on the 10×10 square yields exactly one point,
the bounding-box center `(5, 5)`, and no warning is recorded. -/
theorem tenSq_oversized_spacing (fuel : ℕ) (hf : 1 ≤ fuel) :
    pattern_bidirectional tenSq 1000 1000 none [] fuel =
      some ([(5, 5)], []) := by
  obtain ⟨f, rfl⟩ : ∃ f, fuel = f + 1 :=
    ⟨fuel - 1, (Nat.succ_pred_eq_of_pos hf).symm⟩
  have hc : bbCenter tenSq = (5, 5) := by decide
  have hscan : scanNeighbors tenSq [(0, -1000), (1000, 0), (0, 1000), (-1000, 0)]
      (5, 5) ([], [(5, 5)]) = ([], [(5, 5)]) := by decide
  simp only [pattern_bidirectional, shapeGap, hc]
  norm_num [bfsLoop, numOk, hscan]

/-- Witness for C7 (amended), at fuel 1. -/
theorem tenSq_oversized_spacing_witness :
    pattern_bidirectional tenSq 1000 1000 none [] 1 = some ([(5, 5)], []) :=
  tenSq_oversized_spacing 1 le_rfl

/-- Nothing is ever inside the degenerate two-point polygon: both of its
edges are horizontal, so the winding number is always 0. -/
theorem containsPoint_twoPt (q : Pt) : containsPoint twoPt q = false := rfl

/-- C6 (counterexample): a two-point boundary is accepted without any
validation and pattern generation completes, returning the bounding-box
center — no `DegenerateBoundary` failure exists in the code. -/
theorem twoPt_generates :
    pattern_bidirectional twoPt 5 5 none [] 10 = some ([(5, 0)], []) := by
  decide

/-- C6 (amended): for a boundary of fewer than 3 points, construction
performs no validation and bidirectional generation completes normally,
emitting the bounding-box midpoint (for any spacings ≥ gap and any
sufficient fuel). -/
theorem twoPt_no_validation (v h : ℤ) (fuel : ℕ)
    (hv : 5 ≤ v) (hh : 5 ≤ h) (hf : 1 ≤ fuel) :
    pattern_bidirectional twoPt v h none [] fuel = some ([(5, 0)], []) := by
  obtain ⟨f, rfl⟩ : ∃ f, fuel = f + 1 :=
    ⟨fuel - 1, (Nat.succ_pred_eq_of_pos hf).symm⟩
  have hc : bbCenter twoPt = (5, 0) := by decide
  have hscan := scanNeighbors_of_contains_false twoPt containsPoint_twoPt
    (5, 0) [(0, -v), (h, 0), (0, v), (-h, 0)] ([], [(5, 0)])
  simp only [pattern_bidirectional, shapeGap, hc,
    if_neg (not_lt.2 hv), if_neg (not_lt.2 hh)]
  simp [bfsLoop, numOk, hscan]

/-- Witness for C6 (amended), at spacing 7/9 and fuel 3. -/
theorem twoPt_no_validation_witness :
    pattern_bidirectional twoPt 7 9 none [] 3 = some ([(5, 0)], []) :=
  twoPt_no_validation 7 9 3 (by norm_num) (by norm_num) (by norm_num)

/-- Once the turn-count loop guard `max_radius / turns < gap` holds at
`turns ≥ 4`, it holds forever (the quotient only shrinks as `turns` grows),
so the loop never exits, whatever fuel it is given. -/
theorem turnsLoop_no_exit (maxR g : ℚ) (h0 : 0 ≤ maxR) (hlt : maxR < 4 * g) :
    ∀ (fuel t : ℕ), 4 ≤ t → turnsLoop maxR g fuel t = none := by
  have hg : 0 < g := by linarith
  have key : ∀ t : ℕ, 4 ≤ t → maxR / t < g := by
    intro t ht
    have h4t : (4 : ℚ) ≤ t := by exact_mod_cast ht
    have ht0 : (0 : ℚ) < t := by linarith
    rw [div_lt_iff₀ ht0]
    nlinarith
  intro fuel
  induction fuel with
  | zero => intro t ht; simp [turnsLoop, key t ht]
  | succ f ih =>
    intro t ht
    simp only [turnsLoop, key t ht, if_true]
    exact ih (t + 1) (by omega)

/-- C2 (code bug): on the 10×10 polygon (`max_radius = 11/2 < 4·gap`), the
spiral turn-count loop never terminates — whatever the fuel, the model
reports divergence, for every `num_points`.  The loop guard
`max_radius / turns < gap` only becomes more true as `turns` grows, so the
code's `while` loop is a no-op when initially false and an infinite loop
when initially true, contradicting the termination the spec claims. -/
theorem tenSq_spiral_diverges (n : Option ℤ) (fuel : ℕ) :
    pattern_spiral tenSq n fuel = none := by
  have hmr : maxRadiusQ tenSq = 11 / 2 := by
    have hw : bbWidth tenSq = 11 := by decide
    have hh2 : bbHeight tenSq = 11 := by decide
    rw [maxRadiusQ, hw, hh2]
    norm_num
  have ht : turnsLoop (maxRadiusQ tenSq) 5 fuel 4 = none := by
    rw [hmr]
    exact turnsLoop_no_exit (11 / 2) 5 (by norm_num) (by norm_num) fuel 4 le_rfl
  simp [pattern_spiral, ht]

/-- C3 (code bug): calling the spiral generator with `num_points=None` (the
declared default) raises `TypeError` at `num_points > max_num_points`
instead of completing with a warning. -/
theorem spiral_none_raises :
    pattern_spiral sq100 none 1 = some (.error noneCompareMsg) := by
  have hmr : maxRadiusQ sq100 = 101 / 2 := by
    have hw : bbWidth sq100 = 101 := by decide
    have hh2 : bbHeight sq100 = 101 := by decide
    rw [maxRadiusQ, hw, hh2]
    norm_num
  have ht : turnsLoop (maxRadiusQ sq100) 5 1 4 = some 4 := by
    rw [hmr, turnsLoop]
    norm_num
  simp [pattern_spiral, ht]

/-- C1 (counterexample): on the U-shaped polygon the run emits 32 ablation
points; the first, `(15, 15)`, fails the even-odd containment test even
though the run is not the empty-sweep fallback (31 further points were
produced). -/
theorem uPoly_emits_noncontained :
    containsPoint uPoly (15, 15) = false ∧ (15, 15) ∈ uAbl ∧
      2 ≤ uAbl.length := by
  refine ⟨by decide, ?_, ?_⟩ <;> rw [uAbl_eq] <;> decide

set_option maxRecDepth 16000

/-- Every point the spiral generator buckets — into either output list —
passed the containment test (its appends are guarded by
`self.containsPoint(point, Qt.OddEvenFill)`). -/
theorem spiralCore_contained (poly : List Pt) (turns : ℕ) (k : ℤ)
    (abl pat : List Pt) (w : List String)
    (hres : spiralCore poly turns k = .ok (abl, pat, w)) :
    ∀ q ∈ abl ++ pat, containsPoint poly q = true := by
  rw [spiralCore] at hres
  by_cases hneg : (if k > maxNumPts poly turns then maxNumPts poly turns else k) < 0
  · simp only [hneg, if_true] at hres
    exact absurd hres (by simp)
  · simp only [hneg, if_false, Except.ok.injEq, Prod.mk.injEq] at hres
    intro q hq
    rcases List.mem_append.1 hq with hl | hr
    · rw [← hres.1] at hl
      obtain ⟨i, hi, rfl⟩ := List.mem_map.1 hl
      exact ((Bool.and_eq_true _ _).mp (List.mem_filter.1 hi).2).2
    · rw [← hres.2.1] at hr
      obtain ⟨i, hi, rfl⟩ := List.mem_map.1 hr
      exact ((Bool.and_eq_true _ _).mp (List.mem_filter.1 hi).2).2

/-- C1 (amended): every point placed in `ablation_points` or
`pattern_points` satisfies the even-odd containment test *except* points of
the BFS seed/fallback kind: a bidirectional output point is either carried
over from the initial list, or is the rounded bounding-box midpoint (the
unconditional BFS seed, which coincides with the fallback centroid), or
passes containment; every spiral output point passes containment. -/
theorem containment_with_seed_exception :
    (∀ (poly : List Pt) (v h : ℤ) (n : Option ℤ) (abl0 : List Pt) (fuel : ℕ)
        (l : List Pt) (w : List String),
        pattern_bidirectional poly v h n abl0 fuel = some (l, w) →
        ∀ q ∈ l, q ∈ abl0 ∨ q = bbCenter poly ∨ containsPoint poly q = true) ∧
    (∀ (poly : List Pt) (turns : ℕ) (k : ℤ) (abl pat : List Pt)
        (w : List String),
        spiralCore poly turns k = .ok (abl, pat, w) →
        ∀ q ∈ abl ++ pat, containsPoint poly q = true) := by
  refine ⟨?_, spiralCore_contained⟩
  intro poly v h n abl0 fuel l w hres
  simp only [pattern_bidirectional] at hres
  cases hb : bfsLoop poly (if v < shapeGap then shapeGap else v)
      (if h < shapeGap then shapeGap else h) n fuel
      [bbCenter poly] [bbCenter poly] abl0 with
  | none => rw [hb] at hres; exact absurd hres (by simp)
  | some l0 =>
    rw [hb] at hres
    have hmem := bfsLoop_mem poly _ _ n
      (fun q => q ∈ abl0 ∨ q = bbCenter poly ∨ containsPoint poly q = true)
      (fun x hx => Or.inr (Or.inr hx)) fuel _ _ _ _
      (by intro x hx; simp only [List.mem_singleton] at hx
          exact Or.inr (Or.inl hx))
      (fun x hx => Or.inl hx) hb
    by_cases he : l0.isEmpty
    · simp only [he, if_true, Option.some.injEq, Prod.mk.injEq] at hres
      intro q hq
      rw [← hres.1] at hq
      simp only [List.mem_singleton] at hq
      exact Or.inr (Or.inl hq)
    · simp only [he, Bool.false_eq_true, if_false, Option.some.injEq,
        Prod.mk.injEq] at hres
      intro q hq
      exact hmem q (hres.1 ▸ hq)

/-! ### List minimum / maximum facts for the numpy reductions -/

theorem foldl_min_le_init : ∀ (l : List ℝ) (a : ℝ), l.foldl min a ≤ a := by
  intro l
  induction l with
  | nil => intro a; exact le_rfl
  | cons x t ih =>
    intro a
    calc (x :: t).foldl min a = t.foldl min (min a x) := rfl
    _ ≤ min a x := ih (min a x)
    _ ≤ a := min_le_left a x

theorem foldl_min_le_mem : ∀ (l : List ℝ) (a x : ℝ), x ∈ l → l.foldl min a ≤ x := by
  intro l
  induction l with
  | nil => intro a x hx; exact absurd hx (List.not_mem_nil x)
  | cons y t ih =>
    intro a x hx
    rcases List.mem_cons.1 hx with rfl | hmem
    · calc (x :: t).foldl min a = t.foldl min (min a x) := rfl
      _ ≤ min a x := foldl_min_le_init t (min a x)
      _ ≤ x := min_le_right a x
    · exact ih (min a y) x hmem

theorem le_foldl_min : ∀ (l : List ℝ) (a b : ℝ), b ≤ a → (∀ x ∈ l, b ≤ x) →
    b ≤ l.foldl min a := by
  intro l
  induction l with
  | nil => intro a b hb _; exact hb
  | cons y t ih =>
    intro a b hb hl
    refine ih (min a y) b (le_min hb (hl y (List.mem_cons_self y t))) ?_
    intro x hx
    exact hl x (List.mem_cons_of_mem y hx)

theorem init_le_foldl_max : ∀ (l : List ℝ) (a : ℝ), a ≤ l.foldl max a := by
  intro l
  induction l with
  | nil => intro a; exact le_rfl
  | cons x t ih =>
    intro a
    calc a ≤ max a x := le_max_left a x
    _ ≤ t.foldl max (max a x) := ih (max a x)
    _ = (x :: t).foldl max a := rfl

theorem mem_le_foldl_max : ∀ (l : List ℝ) (a x : ℝ), x ∈ l → x ≤ l.foldl max a := by
  intro l
  induction l with
  | nil => intro a x hx; exact absurd hx (List.not_mem_nil x)
  | cons y t ih =>
    intro a x hx
    rcases List.mem_cons.1 hx with rfl | hmem
    · calc x ≤ max a x := le_max_right a x
      _ ≤ t.foldl max (max a x) := init_le_foldl_max t (max a x)
      _ = (x :: t).foldl max a := rfl
    · exact ih (max a y) x hmem

theorem foldl_max_le : ∀ (l : List ℝ) (a b : ℝ), a ≤ b → (∀ x ∈ l, x ≤ b) →
    l.foldl max a ≤ b := by
  intro l
  induction l with
  | nil => intro a b hb _; exact hb
  | cons y t ih =>
    intro a b hb hl
    refine ih (max a y) b (max_le hb (hl y (List.mem_cons_self y t))) ?_
    intro x hx
    exact hl x (List.mem_cons_of_mem y hx)

theorem listMin_le (l : List ℝ) (x : ℝ) (hx : x ∈ l) : listMin l ≤ x :=
  foldl_min_le_mem l l.headI x hx

theorem le_listMin (l : List ℝ) (b : ℝ) (hne : l ≠ [])
    (hb : ∀ x ∈ l, b ≤ x) : b ≤ listMin l := by
  refine le_foldl_min l l.headI b ?_ hb
  cases l with
  | nil => exact absurd rfl hne
  | cons y t => exact hb y (List.mem_cons_self y t)

theorem le_listMax (l : List ℝ) (x : ℝ) (hx : x ∈ l) : x ≤ listMax l :=
  mem_le_foldl_max l l.headI x hx

theorem listMax_le (l : List ℝ) (b : ℝ) (hne : l ≠ [])
    (hb : ∀ x ∈ l, x ≤ b) : listMax l ≤ b := by
  refine foldl_max_le l l.headI b ?_ hb
  cases l with
  | nil => exact absurd rfl hne
  | cons y t => exact hb y (List.mem_cons_self y t)

/-! ### Facts about the four-turn spiral samples -/

theorem rawXs_ne_nil : rawXs 4 ≠ [] := by
  simp [rawXs, List.map_eq_nil_iff, List.range_eq_nil]

theorem rawYs_ne_nil : rawYs 4 ≠ [] := by
  simp [rawYs, List.map_eq_nil_iff, List.range_eq_nil]

theorem mem_rawXs (k : ℕ) (hk : k < 1000) : rawX 4 k ∈ rawXs 4 :=
  List.mem_map_of_mem (rawX 4) (List.mem_range.2 hk)

theorem mem_rawYs (k : ℕ) (hk : k < 1000) : rawY 4 k ∈ rawYs 4 :=
  List.mem_map_of_mem (rawY 4) (List.mem_range.2 hk)

theorem thetaAt_nonneg (turns k : ℕ) : 0 ≤ thetaAt turns k := by
  rw [thetaAt]
  positivity

theorem thetaAt_le_999 (k : ℕ) (hk : k ≤ 999) : thetaAt 4 k ≤ 4 * Real.pi := by
  rw [thetaAt]
  push_cast
  rw [div_le_iff₀ (by norm_num : (0:ℝ) < 999)]
  have hπ : (0:ℝ) ≤ Real.pi := Real.pi_nonneg
  have hk2 : (k : ℝ) ≤ 999 := by exact_mod_cast hk
  nlinarith

theorem abs_rawX_le (k : ℕ) (hk : k ≤ 999) : |rawX 4 k| ≤ 4 * Real.pi := by
  rw [rawX, abs_mul, abs_of_nonneg (thetaAt_nonneg 4 k)]
  calc thetaAt 4 k * |Real.cos (thetaAt 4 k)| ≤ thetaAt 4 k * 1 :=
    mul_le_mul_of_nonneg_left (Real.abs_cos_le_one _) (thetaAt_nonneg 4 k)
  _ = thetaAt 4 k := mul_one _
  _ ≤ 4 * Real.pi := thetaAt_le_999 k hk

theorem abs_rawY_le (k : ℕ) (hk : k ≤ 999) : |rawY 4 k| ≤ 4 * Real.pi := by
  rw [rawY, abs_mul, abs_of_nonneg (thetaAt_nonneg 4 k)]
  calc thetaAt 4 k * |Real.sin (thetaAt 4 k)| ≤ thetaAt 4 k * 1 :=
    mul_le_mul_of_nonneg_left (Real.abs_sin_le_one _) (thetaAt_nonneg 4 k)
  _ = thetaAt 4 k := mul_one _
  _ ≤ 4 * Real.pi := thetaAt_le_999 k hk

theorem rawX_zero : rawX 4 0 = 0 := by
  rw [rawX, thetaAt]
  norm_num

theorem rawY_zero : rawY 4 0 = 0 := by
  rw [rawY, thetaAt]
  norm_num

theorem thetaAt_999 : thetaAt 4 999 = 4 * Real.pi := by
  rw [thetaAt]
  norm_num

theorem rawX_999 : rawX 4 999 = 4 * Real.pi := by
  rw [rawX, thetaAt_999]
  have h4 : (4:ℝ) * Real.pi = (2:ℕ) * (2 * Real.pi) := by push_cast; ring
  rw [h4, Real.cos_nat_mul_two_pi, mul_one]

theorem rawY_999 : rawY 4 999 = 0 := by
  rw [rawY, thetaAt_999]
  have h4 : (4:ℝ) * Real.pi = (4:ℕ) * Real.pi := by push_cast; ring
  rw [h4, Real.sin_nat_mul_pi, mul_zero]

theorem xMin4_le_zero : listMin (rawXs 4) ≤ 0 := by
  have := listMin_le (rawXs 4) (rawX 4 0) (mem_rawXs 0 (by norm_num))
  rwa [rawX_zero] at this

theorem xMin4_ge : -(4 * Real.pi) ≤ listMin (rawXs 4) := by
  refine le_listMin _ _ rawXs_ne_nil ?_
  intro x hx
  obtain ⟨k, hk, rfl⟩ := List.mem_map.1 hx
  have hk2 : k ≤ 999 := by
    have := List.mem_range.1 hk; omega
  exact neg_le_of_abs_le (abs_rawX_le k hk2)

theorem xMax4_eq : listMax (rawXs 4) = 4 * Real.pi := by
  refine le_antisymm ?_ ?_
  · refine listMax_le _ _ rawXs_ne_nil ?_
    intro x hx
    obtain ⟨k, hk, rfl⟩ := List.mem_map.1 hx
    have hk2 : k ≤ 999 := by
      have := List.mem_range.1 hk; omega
    exact le_of_abs_le (abs_rawX_le k hk2)
  · have := le_listMax (rawXs 4) (rawX 4 999) (mem_rawXs 999 (by norm_num))
    rwa [rawX_999] at this

theorem yMin4_le_zero : listMin (rawYs 4) ≤ 0 := by
  have := listMin_le (rawYs 4) (rawY 4 0) (mem_rawYs 0 (by norm_num))
  rwa [rawY_zero] at this

theorem yMin4_ge : -(4 * Real.pi) ≤ listMin (rawYs 4) := by
  refine le_listMin _ _ rawYs_ne_nil ?_
  intro x hx
  obtain ⟨k, hk, rfl⟩ := List.mem_map.1 hx
  have hk2 : k ≤ 999 := by
    have := List.mem_range.1 hk; omega
  exact neg_le_of_abs_le (abs_rawY_le k hk2)

theorem yMax4_le : listMax (rawYs 4) ≤ 4 * Real.pi := by
  refine listMax_le _ _ rawYs_ne_nil ?_
  intro x hx
  obtain ⟨k, hk, rfl⟩ := List.mem_map.1 hx
  have hk2 : k ≤ 999 := by
    have := List.mem_range.1 hk; omega
  exact le_of_abs_le (abs_rawY_le k hk2)

/-! ### Quantitative sample estimates (turns = 4)

Each distinguished sample index is a rational multiple of π close to a
quarter-turn; the factor `cos(small)` is bounded via `1 - t²/2 ≤ cos t`. -/

theorem cos_small_ge (t : ℝ) (h0 : 0 ≤ t) (h1 : t ≤ 1 / 100) :
    (0.9999 : ℝ) ≤ Real.cos t := by
  have h2 := Real.one_sub_sq_div_two_le_cos (x := t)
  nlinarith

theorem theta125_eq : thetaAt 4 125 = Real.pi / 2 + Real.pi / 1998 := by
  rw [thetaAt]; push_cast; ring

theorem sin_theta125 :
    Real.sin (thetaAt 4 125) = Real.cos (Real.pi / 1998) := by
  rw [theta125_eq, Real.sin_add, Real.sin_pi_div_two, Real.cos_pi_div_two]
  ring

theorem cos_theta125_nonpos : Real.cos (thetaAt 4 125) ≤ 0 := by
  rw [theta125_eq, Real.cos_add, Real.cos_pi_div_two, Real.sin_pi_div_two]
  have hs : 0 ≤ Real.sin (Real.pi / 1998) :=
    Real.sin_nonneg_of_nonneg_of_le_pi (by positivity)
      (by nlinarith [Real.pi_pos])
  nlinarith

theorem rawX_125_nonpos : rawX 4 125 ≤ 0 :=
  mul_nonpos_of_nonneg_of_nonpos (thetaAt_nonneg 4 125) cos_theta125_nonpos

theorem rawY_125_ge : (1.5722 : ℝ) ≤ rawY 4 125 := by
  have hπ1 := Real.pi_gt_d6
  have hπ2 := Real.pi_lt_d6
  have hc1 : (0.9999 : ℝ) ≤ Real.cos (Real.pi / 1998) :=
    cos_small_ge _ (by positivity) (by nlinarith)
  rw [rawY, sin_theta125, theta125_eq]
  nlinarith

theorem rawY_125_le : rawY 4 125 ≤ (1.5724 : ℝ) := by
  have hπ1 := Real.pi_gt_d6
  have hπ2 := Real.pi_lt_d6
  have hs1 : Real.sin (thetaAt 4 125) ≤ 1 := Real.sin_le_one _
  have hs0 : (0 : ℝ) ≤ Real.sin (thetaAt 4 125) := by
    rw [sin_theta125]
    have := cos_small_ge (Real.pi / 1998) (by positivity) (by nlinarith)
    linarith
  have hθ := thetaAt_nonneg 4 125
  have hθhi : thetaAt 4 125 ≤ (1.5724 : ℝ) := by
    rw [theta125_eq]; nlinarith
  calc rawY 4 125 ≤ thetaAt 4 125 * 1 :=
    mul_le_mul_of_nonneg_left hs1 hθ
  _ ≤ (1.5724 : ℝ) := by rw [mul_one]; exact hθhi

theorem theta500_eq : thetaAt 4 500 = 2 * Real.pi / 999 + 2 * Real.pi := by
  rw [thetaAt]; push_cast; ring

theorem cos_theta500 :
    Real.cos (thetaAt 4 500) = Real.cos (2 * Real.pi / 999) := by
  rw [theta500_eq, Real.cos_add_two_pi]

theorem rawX_500_ge : (6.288 : ℝ) ≤ rawX 4 500 := by
  have hπ1 := Real.pi_gt_d6
  have hπ2 := Real.pi_lt_d6
  have hc1 : (0.9999 : ℝ) ≤ Real.cos (2 * Real.pi / 999) :=
    cos_small_ge _ (by positivity) (by nlinarith)
  rw [rawX, cos_theta500, theta500_eq]
  nlinarith

theorem theta749_eq : thetaAt 4 749 = (Real.pi - Real.pi / 999) + 2 * Real.pi := by
  rw [thetaAt]; push_cast; ring

theorem cos_theta749 :
    Real.cos (thetaAt 4 749) = -Real.cos (Real.pi / 999) := by
  rw [theta749_eq, Real.cos_add_two_pi, Real.cos_pi_sub]

theorem rawX_749_le : rawX 4 749 ≤ (-9.4206 : ℝ) := by
  have hπ1 := Real.pi_gt_d6
  have hπ2 := Real.pi_lt_d6
  have hc1 : (0.9999 : ℝ) ≤ Real.cos (Real.pi / 999) :=
    cos_small_ge _ (by positivity) (by nlinarith)
  have hc2 : Real.cos (Real.pi / 999) ≤ 1 := Real.cos_le_one _
  rw [rawX, cos_theta749, theta749_eq]
  nlinarith

theorem theta375_eq : thetaAt 4 375 = 3 * Real.pi / 2 + Real.pi / 666 := by
  rw [thetaAt]; push_cast; ring

theorem sin_theta375 :
    Real.sin (thetaAt 4 375) = -Real.cos (Real.pi / 666) := by
  have h1 : 3 * Real.pi / 2 + Real.pi / 666 =
      Real.pi + (Real.pi / 2 + Real.pi / 666) := by ring
  rw [theta375_eq, h1, Real.sin_add, Real.sin_pi, Real.cos_pi, Real.sin_add,
    Real.sin_pi_div_two, Real.cos_pi_div_two]
  ring

theorem rawY_375_le : rawY 4 375 ≤ (-4.716 : ℝ) := by
  have hπ1 := Real.pi_gt_d6
  have hπ2 := Real.pi_lt_d6
  have hc1 : (0.9999 : ℝ) ≤ Real.cos (Real.pi / 666) :=
    cos_small_ge _ (by positivity) (by nlinarith)
  have hc2 : Real.cos (Real.pi / 666) ≤ 1 := Real.cos_le_one _
  rw [rawY, sin_theta375, theta375_eq]
  nlinarith

theorem theta624_eq :
    thetaAt 4 624 = (Real.pi / 2 - Real.pi / 666) + 2 * Real.pi := by
  rw [thetaAt]; push_cast; ring

theorem sin_theta624 :
    Real.sin (thetaAt 4 624) = Real.cos (Real.pi / 666) := by
  rw [theta624_eq, Real.sin_add_two_pi, Real.sin_pi_div_two_sub]

theorem rawY_624_ge : (7.848 : ℝ) ≤ rawY 4 624 := by
  have hπ1 := Real.pi_gt_d6
  have hπ2 := Real.pi_lt_d6
  have hc1 : (0.9999 : ℝ) ≤ Real.cos (Real.pi / 666) :=
    cos_small_ge _ (by positivity) (by nlinarith)
  rw [rawY, sin_theta624, theta624_eq]
  nlinarith

theorem theta874_eq :
    thetaAt 4 874 = (3 * Real.pi / 2 - Real.pi / 1998) + 2 * Real.pi := by
  rw [thetaAt]; push_cast; ring

theorem sin_theta874 :
    Real.sin (thetaAt 4 874) = -Real.cos (Real.pi / 1998) := by
  have h1 : 3 * Real.pi / 2 - Real.pi / 1998 =
      Real.pi + (Real.pi / 2 - Real.pi / 1998) := by ring
  rw [theta874_eq, Real.sin_add_two_pi, h1, Real.sin_add, Real.sin_pi,
    Real.cos_pi, Real.sin_pi_div_two_sub]
  ring

theorem rawY_874_le : rawY 4 874 ≤ (-10.992 : ℝ) := by
  have hπ1 := Real.pi_gt_d6
  have hπ2 := Real.pi_lt_d6
  have hc1 : (0.9999 : ℝ) ≤ Real.cos (Real.pi / 1998) :=
    cos_small_ge _ (by positivity) (by nlinarith)
  have hc2 : Real.cos (Real.pi / 1998) ≤ 1 := Real.cos_le_one _
  rw [rawY, sin_theta874, theta874_eq]
  nlinarith

theorem yMax4_ge : (7.848 : ℝ) ≤ listMax (rawYs 4) :=
  le_trans rawY_624_ge (le_listMax (rawYs 4) (rawY 4 624) (mem_rawYs 624 (by norm_num)))

/-! ### Arc-length lower bounds -/

theorem segLen_nonneg (poly : List Pt) (turns k : ℕ) : 0 ≤ segLen poly turns k :=
  Real.sqrt_nonneg _

theorem totalLen_nonneg (poly : List Pt) (turns : ℕ) : 0 ≤ totalLen poly turns := by
  rw [totalLen, arcAt]
  exact Finset.sum_nonneg fun i _ => segLen_nonneg poly turns i

theorem abs_dx_le_segLen (poly : List Pt) (turns k : ℕ) :
    |normX poly turns (k + 1) - normX poly turns k| ≤ segLen poly turns k := by
  rw [segLen]
  have h1 : (normX poly turns (k + 1) - normX poly turns k) ^ 2 ≤
      (normX poly turns (k + 1) - normX poly turns k) ^ 2 +
      (normY poly turns (k + 1) - normY poly turns k) ^ 2 := by
    nlinarith [sq_nonneg (normY poly turns (k + 1) - normY poly turns k)]
  have h2 := Real.sqrt_le_sqrt h1
  rwa [Real.sqrt_sq_eq_abs] at h2

theorem absxy_le_sqrt2_segLen (poly : List Pt) (turns k : ℕ) :
    |normX poly turns (k + 1) - normX poly turns k| +
      |normY poly turns (k + 1) - normY poly turns k| ≤
      Real.sqrt 2 * segLen poly turns k := by
  set a := normX poly turns (k + 1) - normX poly turns k with ha
  set b := normY poly turns (k + 1) - normY poly turns k with hb
  have h1 : (|a| + |b|) ^ 2 ≤ 2 * (a ^ 2 + b ^ 2) := by
    nlinarith [sq_nonneg (|a| - |b|), sq_abs a, sq_abs b]
  have h2 : |a| + |b| = Real.sqrt ((|a| + |b|) ^ 2) :=
    (Real.sqrt_sq (by positivity)).symm
  rw [h2, segLen]
  calc Real.sqrt ((|a| + |b|) ^ 2) ≤ Real.sqrt (2 * (a ^ 2 + b ^ 2)) :=
    Real.sqrt_le_sqrt h1
  _ = Real.sqrt 2 * Real.sqrt (a ^ 2 + b ^ 2) :=
    Real.sqrt_mul (by norm_num) _

theorem abs_sub_le_sum_abs_diff (f : ℕ → ℝ) (a b : ℕ) (hab : a ≤ b) :
    |f b - f a| ≤ ∑ i ∈ Finset.Ico a b, |f (i + 1) - f i| := by
  have ht : ∑ i ∈ Finset.Ico a b, (f (i + 1) - f i) = f b - f a := by
    rw [Finset.sum_Ico_eq_sub _ hab, Finset.sum_range_sub f, Finset.sum_range_sub f]
    ring
  calc |f b - f a| = |∑ i ∈ Finset.Ico a b, (f (i + 1) - f i)| := by rw [ht]
  _ ≤ ∑ i ∈ Finset.Ico a b, |f (i + 1) - f i| :=
    Finset.abs_sum_le_sum_abs _ _

theorem normX_sub (poly : List Pt) (turns a b : ℕ) :
    normX poly turns b - normX poly turns a =
      (rawX turns b - rawX turns a) /
        (listMax (rawXs turns) - listMin (rawXs turns)) * (bbWidth poly : ℝ) := by
  rw [normX, normX]
  ring

theorem normY_sub (poly : List Pt) (turns a b : ℕ) :
    normY poly turns b - normY poly turns a =
      (rawY turns b - rawY turns a) /
        (listMax (rawYs turns) - listMin (rawYs turns)) * (bbHeight poly : ℝ) := by
  rw [normY, normY]
  ring

theorem rangeX4_pos : 0 < listMax (rawXs 4) - listMin (rawXs 4) := by
  rw [xMax4_eq]
  have h1 := xMin4_le_zero
  have h2 := Real.pi_gt_d6
  nlinarith

theorem rangeY4_pos : 0 < listMax (rawYs 4) - listMin (rawYs 4) := by
  have h1 := yMax4_ge
  have h2 := yMin4_le_zero
  linarith

theorem rangeX4_le : listMax (rawXs 4) - listMin (rawXs 4) ≤ 8 * Real.pi := by
  rw [xMax4_eq]
  have := xMin4_ge
  linarith

theorem rangeY4_le : listMax (rawYs 4) - listMin (rawYs 4) ≤ 8 * Real.pi := by
  have h1 := yMax4_le
  have h2 := yMin4_ge
  linarith

/-- The scale factor `width / (x.max() - x.min())` for a 101-wide box is at
least 4.018. -/
theorem scaleX_101_ge :
    (4.018 : ℝ) ≤ 101 / (listMax (rawXs 4) - listMin (rawXs 4)) := by
  rw [le_div_iff₀ rangeX4_pos]
  have h1 := rangeX4_le
  have h2 := Real.pi_lt_d6
  nlinarith

theorem scaleY_101_ge :
    (4.018 : ℝ) ≤ 101 / (listMax (rawYs 4) - listMin (rawYs 4)) := by
  rw [le_div_iff₀ rangeY4_pos]
  have h1 := rangeY4_le
  have h2 := Real.pi_lt_d6
  nlinarith

theorem sqrt_two_le : Real.sqrt 2 ≤ (1.414214 : ℝ) := by
  nlinarith [Real.sq_sqrt (show (0:ℝ) ≤ 2 by norm_num), Real.sqrt_nonneg 2]

/-- Arc-length lower bound for the 100×100 square: the normalised spiral is
at least 267 pixels long (the true value is ≈ 317), via the total variation
of its x and y coordinates along two monotone chains of samples. -/
theorem totalLen_sq100_ge : (267 : ℝ) ≤ totalLen sq100 4 := by
  have hπ1 := Real.pi_gt_d6
  have hπ2 := Real.pi_lt_d6
  have hRxpos := rangeX4_pos
  have hRypos := rangeY4_pos
  have hW : (bbWidth sq100 : ℝ) = 101 := by
    norm_num [show bbWidth sq100 = 101 from by decide]
  have hH : (bbHeight sq100 : ℝ) = 101 := by
    norm_num [show bbHeight sq100 = 101 from by decide]
  set u : ℝ := 101 / (listMax (rawXs 4) - listMin (rawXs 4)) with hu
  set w : ℝ := 101 / (listMax (rawYs 4) - listMin (rawYs 4)) with hw
  have hu4 : (4.018 : ℝ) ≤ u := scaleX_101_ge
  have hw4 : (4.018 : ℝ) ≤ w := scaleY_101_ge
  have hax : ∀ a b : ℕ, |normX sq100 4 b - normX sq100 4 a| =
      |rawX 4 b - rawX 4 a| * u := by
    intro a b
    rw [normX_sub, hW, hu, abs_mul, abs_div, abs_of_pos hRxpos,
      abs_of_nonneg (show (0:ℝ) ≤ 101 by norm_num)]
    ring
  have hay : ∀ a b : ℕ, |normY sq100 4 b - normY sq100 4 a| =
      |rawY 4 b - rawY 4 a| * w := by
    intro a b
    rw [normY_sub, hH, hw, abs_mul, abs_div, abs_of_pos hRypos,
      abs_of_nonneg (show (0:ℝ) ≤ 101 by norm_num)]
    ring
  -- raw-coordinate separations along the chains
  have hd1 : (6.288 : ℝ) ≤ |rawX 4 500 - rawX 4 0| := by
    rw [rawX_zero, sub_zero]
    exact le_trans rawX_500_ge (le_abs_self _)
  have hd2 : (15.708 : ℝ) ≤ |rawX 4 749 - rawX 4 500| := by
    rw [abs_sub_comm]
    have := rawX_500_ge; have := rawX_749_le
    calc (15.708 : ℝ) ≤ rawX 4 500 - rawX 4 749 := by linarith
    _ ≤ |rawX 4 500 - rawX 4 749| := le_abs_self _
  have hd3 : (21.986 : ℝ) ≤ |rawX 4 999 - rawX 4 749| := by
    rw [rawX_999]
    have := rawX_749_le
    calc (21.986 : ℝ) ≤ 4 * Real.pi - rawX 4 749 := by nlinarith
    _ ≤ |4 * Real.pi - rawX 4 749| := le_abs_self _
  have hd4 : (1.5722 : ℝ) ≤ |rawY 4 125 - rawY 4 0| := by
    rw [rawY_zero, sub_zero]
    exact le_trans rawY_125_ge (le_abs_self _)
  have hd5 : (6.288 : ℝ) ≤ |rawY 4 375 - rawY 4 125| := by
    rw [abs_sub_comm]
    have := rawY_125_ge; have := rawY_375_le
    calc (6.288 : ℝ) ≤ rawY 4 125 - rawY 4 375 := by linarith
    _ ≤ |rawY 4 125 - rawY 4 375| := le_abs_self _
  have hd6 : (12.564 : ℝ) ≤ |rawY 4 624 - rawY 4 375| := by
    have := rawY_624_ge; have := rawY_375_le
    calc (12.564 : ℝ) ≤ rawY 4 624 - rawY 4 375 := by linarith
    _ ≤ |rawY 4 624 - rawY 4 375| := le_abs_self _
  have hd7 : (18.84 : ℝ) ≤ |rawY 4 874 - rawY 4 624| := by
    rw [abs_sub_comm]
    have := rawY_624_ge; have := rawY_874_le
    calc (18.84 : ℝ) ≤ rawY 4 624 - rawY 4 874 := by linarith
    _ ≤ |rawY 4 624 - rawY 4 874| := le_abs_self _
  have hd8 : (10.992 : ℝ) ≤ |rawY 4 999 - rawY 4 874| := by
    rw [rawY_999, zero_sub, abs_neg]
    have := rawY_874_le
    calc (10.992 : ℝ) ≤ -(rawY 4 874) := by linarith
    _ ≤ |rawY 4 874| := neg_le_abs _
  -- block sums over the x chain
  have hux : (0:ℝ) ≤ u := by linarith
  have huy : (0:ℝ) ≤ w := by linarith
  have hblockx : ∀ a b : ℕ, a ≤ b →
      |rawX 4 b - rawX 4 a| * u ≤
        ∑ i ∈ Finset.Ico a b, |normX sq100 4 (i + 1) - normX sq100 4 i| := by
    intro a b hab
    rw [← hax a b]
    exact abs_sub_le_sum_abs_diff (normX sq100 4) a b hab
  have hblocky : ∀ a b : ℕ, a ≤ b →
      |rawY 4 b - rawY 4 a| * w ≤
        ∑ i ∈ Finset.Ico a b, |normY sq100 4 (i + 1) - normY sq100 4 i| := by
    intro a b hab
    rw [← hay a b]
    exact abs_sub_le_sum_abs_diff (normY sq100 4) a b hab
  have hsx : (43.982 : ℝ) * u ≤
      ∑ i ∈ Finset.range 999, |normX sq100 4 (i + 1) - normX sq100 4 i| := by
    rw [Finset.range_eq_Ico,
      ← Finset.sum_Ico_consecutive
        (fun i => |normX sq100 4 (i + 1) - normX sq100 4 i|)
        (show (0:ℕ) ≤ 749 by omega) (show (749:ℕ) ≤ 999 by omega),
      ← Finset.sum_Ico_consecutive
        (fun i => |normX sq100 4 (i + 1) - normX sq100 4 i|)
        (show (0:ℕ) ≤ 500 by omega) (show (500:ℕ) ≤ 749 by omega)]
    have h1 := hblockx 0 500 (by omega)
    have h2 := hblockx 500 749 (by omega)
    have h3 := hblockx 749 999 (by omega)
    have e1 : (6.288 : ℝ) * u ≤ |rawX 4 500 - rawX 4 0| * u :=
      mul_le_mul_of_nonneg_right hd1 hux
    have e2 : (15.708 : ℝ) * u ≤ |rawX 4 749 - rawX 4 500| * u :=
      mul_le_mul_of_nonneg_right hd2 hux
    have e3 : (21.986 : ℝ) * u ≤ |rawX 4 999 - rawX 4 749| * u :=
      mul_le_mul_of_nonneg_right hd3 hux
    nlinarith
  have hsy : (50.256 : ℝ) * w ≤
      ∑ i ∈ Finset.range 999, |normY sq100 4 (i + 1) - normY sq100 4 i| := by
    rw [Finset.range_eq_Ico,
      ← Finset.sum_Ico_consecutive
        (fun i => |normY sq100 4 (i + 1) - normY sq100 4 i|)
        (show (0:ℕ) ≤ 874 by omega) (show (874:ℕ) ≤ 999 by omega),
      ← Finset.sum_Ico_consecutive
        (fun i => |normY sq100 4 (i + 1) - normY sq100 4 i|)
        (show (0:ℕ) ≤ 624 by omega) (show (624:ℕ) ≤ 874 by omega),
      ← Finset.sum_Ico_consecutive
        (fun i => |normY sq100 4 (i + 1) - normY sq100 4 i|)
        (show (0:ℕ) ≤ 375 by omega) (show (375:ℕ) ≤ 624 by omega),
      ← Finset.sum_Ico_consecutive
        (fun i => |normY sq100 4 (i + 1) - normY sq100 4 i|)
        (show (0:ℕ) ≤ 125 by omega) (show (125:ℕ) ≤ 375 by omega)]
    have h1 := hblocky 0 125 (by omega)
    have h2 := hblocky 125 375 (by omega)
    have h3 := hblocky 375 624 (by omega)
    have h4 := hblocky 624 874 (by omega)
    have h5 := hblocky 874 999 (by omega)
    have e1 : (1.5722 : ℝ) * w ≤ |rawY 4 125 - rawY 4 0| * w :=
      mul_le_mul_of_nonneg_right hd4 huy
    have e2 : (6.288 : ℝ) * w ≤ |rawY 4 375 - rawY 4 125| * w :=
      mul_le_mul_of_nonneg_right hd5 huy
    have e3 : (12.564 : ℝ) * w ≤ |rawY 4 624 - rawY 4 375| * w :=
      mul_le_mul_of_nonneg_right hd6 huy
    have e4 : (18.84 : ℝ) * w ≤ |rawY 4 874 - rawY 4 624| * w :=
      mul_le_mul_of_nonneg_right hd7 huy
    have e5 : (10.992 : ℝ) * w ≤ |rawY 4 999 - rawY 4 874| * w :=
      mul_le_mul_of_nonneg_right hd8 huy
    nlinarith
  -- the Manhattan length is at most √2 times the arc length
  have htot : ∑ i ∈ Finset.range 999,
      (|normX sq100 4 (i + 1) - normX sq100 4 i| +
       |normY sq100 4 (i + 1) - normY sq100 4 i|) ≤
      Real.sqrt 2 * totalLen sq100 4 := by
    rw [totalLen, arcAt, Finset.mul_sum]
    exact Finset.sum_le_sum fun i _ => absxy_le_sqrt2_segLen sq100 4 i
  rw [Finset.sum_add_distrib] at htot
  have hs2 := sqrt_two_le
  have hT0 := totalLen_nonneg sq100 4
  have hnum : (378.6 : ℝ) ≤ Real.sqrt 2 * totalLen sq100 4 := by
    nlinarith
  nlinarith

/-- Arc-length lower bound for the 10^6 square: at least half the box
width. -/
theorem totalLen_bigSq_ge : (400000 : ℝ) ≤ totalLen bigSq 4 := by
  have hπ1 := Real.pi_gt_d6
  have hπ2 := Real.pi_lt_d6
  have hRxpos := rangeX4_pos
  have hW : (bbWidth bigSq : ℝ) = 1000001 := by
    norm_num [show bbWidth bigSq = 1000001 from by decide]
  have hax : |normX bigSq 4 999 - normX bigSq 4 0| =
      |rawX 4 999 - rawX 4 0| *
        (1000001 / (listMax (rawXs 4) - listMin (rawXs 4))) := by
    rw [normX_sub, hW, abs_mul, abs_div, abs_of_pos hRxpos,
      abs_of_nonneg (show (0:ℝ) ≤ 1000001 by norm_num)]
    ring
  have hd : (12.566 : ℝ) ≤ |rawX 4 999 - rawX 4 0| := by
    rw [rawX_999, rawX_zero, sub_zero]
    have h := le_abs_self (4 * Real.pi)
    nlinarith [abs_nonneg (4 * Real.pi)]
  have hscale : (0.4 : ℝ) * 1000001 ≤
      12.566 * (1000001 / (listMax (rawXs 4) - listMin (rawXs 4))) := by
    rw [mul_div_assoc']
    rw [le_div_iff₀ rangeX4_pos]
    have := rangeX4_le
    nlinarith
  have hchain : |normX bigSq 4 999 - normX bigSq 4 0| ≤ totalLen bigSq 4 := by
    have h1 := abs_sub_le_sum_abs_diff (normX bigSq 4) 0 999 (by omega)
    rw [← Finset.range_eq_Ico] at h1
    have h2 : ∑ i ∈ Finset.range 999, |normX bigSq 4 (i + 1) - normX bigSq 4 i| ≤
        totalLen bigSq 4 := by
      rw [totalLen, arcAt]
      exact Finset.sum_le_sum fun i _ => abs_dx_le_segLen bigSq 4 i
    linarith
  have hvpos : (0:ℝ) ≤ 1000001 / (listMax (rawXs 4) - listMin (rawXs 4)) := by
    positivity
  have := mul_le_mul_of_nonneg_right hd hvpos
  rw [← hax] at this
  nlinarith

theorem maxNumPts_sq100_ge : (50 : ℤ) ≤ maxNumPts sq100 4 := by
  rw [maxNumPts, Int.le_floor]
  have := totalLen_sq100_ge
  push_cast
  linarith

theorem maxNumPts_bigSq_ge : (1 : ℤ) ≤ maxNumPts bigSq 4 := by
  rw [maxNumPts, Int.le_floor]
  have := totalLen_bigSq_ge
  push_cast
  linarith

/-! ### Even-odd containment characterisation of the axis squares -/

theorem containsPoint_sq100_iff (q : Pt) :
    containsPoint sq100 q = true ↔
      0 ≤ q.1 ∧ q.1 < 100 ∧ 0 ≤ q.2 ∧ q.2 < 100 := by
  simp only [sq100, containsPoint, windingNumber, isectWinding, List.rotate,
    List.zip, List.zipWith, List.foldl_cons, List.foldl_nil]
  norm_num
  split_ifs <;> simp <;> omega

theorem containsPoint_bigSq_iff (q : Pt) :
    containsPoint bigSq q = true ↔
      0 ≤ q.1 ∧ q.1 < 1000000 ∧ 0 ≤ q.2 ∧ q.2 < 1000000 := by
  simp only [bigSq, bigN, containsPoint, windingNumber, isectWinding,
    List.rotate, List.zip, List.zipWith, List.foldl_cons, List.foldl_nil]
  norm_num
  split_ifs <;> simp <;> omega

/-! ### The normalised sample 125 lies strictly inside the 10^6 square -/

theorem normX_nonneg (poly : List Pt) (k : ℕ) (hk : k < 1000)
    (hW : (0:ℝ) ≤ (bbWidth poly : ℝ)) : 0 ≤ normX poly 4 k := by
  rw [normX]
  apply mul_nonneg _ hW
  apply div_nonneg
  · have := listMin_le (rawXs 4) (rawX 4 k) (mem_rawXs k hk)
    linarith
  · have := rangeX4_pos
    linarith

theorem normY_nonneg (poly : List Pt) (k : ℕ) (hk : k < 1000)
    (hH : (0:ℝ) ≤ (bbHeight poly : ℝ)) : 0 ≤ normY poly 4 k := by
  rw [normY]
  apply mul_nonneg _ hH
  apply div_nonneg
  · have := listMin_le (rawYs 4) (rawY 4 k) (mem_rawYs k hk)
    linarith
  · have := rangeY4_pos
    linarith

theorem pyInt_bounds_million (x : ℝ) (h0 : 0 ≤ x) (hlt : x < 1000000) :
    0 ≤ pyInt x ∧ pyInt x < 1000000 := by
  rw [pyInt, if_pos h0]
  refine ⟨Int.floor_nonneg.2 h0, ?_⟩
  have h1 : (⌊x⌋ : ℝ) < 1000000 := lt_of_le_of_lt (Int.floor_le x) hlt
  exact_mod_cast h1

theorem normX_bigSq_125_lt : normX bigSq 4 125 < 1000000 := by
  have hπ1 := Real.pi_gt_d6
  have hπ2 := Real.pi_lt_d6
  have hW : (bbWidth bigSq : ℝ) = 1000001 := by
    norm_num [show bbWidth bigSq = 1000001 from by decide]
  have hm1 := xMin4_le_zero
  have hm2 := xMin4_ge
  have hr := rawX_125_nonpos
  have hRx := rangeX4_pos
  have hmem := listMin_le (rawXs 4) (rawX 4 125) (mem_rawXs 125 (by norm_num))
  rw [normX, hW, xMax4_eq]
  rw [xMax4_eq] at hRx
  have hfrac : (rawX 4 125 - listMin (rawXs 4)) /
      (4 * Real.pi - listMin (rawXs 4)) ≤ 4 / 5 := by
    rw [div_le_iff₀ hRx]
    nlinarith
  nlinarith

theorem normY_bigSq_125_lt : normY bigSq 4 125 < 1000000 := by
  have hπ1 := Real.pi_gt_d6
  have hπ2 := Real.pi_lt_d6
  have hH : (bbHeight bigSq : ℝ) = 1000001 := by
    norm_num [show bbHeight bigSq = 1000001 from by decide]
  have hm1 := yMin4_le_zero
  have hm2 := yMin4_ge
  have hr := rawY_125_le
  have hMax := yMax4_ge
  have hRy := rangeY4_pos
  rw [normY, hH]
  have hfrac : (rawY 4 125 - listMin (rawYs 4)) /
      (listMax (rawYs 4) - listMin (rawYs 4)) ≤ 4 / 5 := by
    rw [div_le_iff₀ hRy]
    nlinarith
  nlinarith

theorem contains_bigSq_pt125 :
    containsPoint bigSq (spiralPt bigSq 4 125) = true := by
  rw [containsPoint_bigSq_iff, spiralPt]
  have hL : bbLeft bigSq = 0 := by decide
  have hT : bbTop bigSq = 0 := by decide
  rw [hL, hT, add_zero, add_zero]
  have hW : (0:ℝ) ≤ (bbWidth bigSq : ℝ) := by
    norm_num [show bbWidth bigSq = 1000001 from by decide]
  have hH : (0:ℝ) ≤ (bbHeight bigSq : ℝ) := by
    norm_num [show bbHeight bigSq = 1000001 from by decide]
  have hx := pyInt_bounds_million (normX bigSq 4 125)
    (normX_nonneg bigSq 125 (by norm_num) hW) normX_bigSq_125_lt
  have hy := pyInt_bounds_million (normY bigSq 4 125)
    (normY_nonneg bigSq 125 (by norm_num) hH) normY_bigSq_125_lt
  exact ⟨hx.1, hx.2, hy.1, hy.2⟩

/-! ### The selected index sets -/

theorem linspaceR_one (t : ℝ) : linspaceR t 1 = [0] := by
  rw [linspaceR, show (1:ℕ) = 0 + 1 from rfl, List.range_succ]
  simp

theorem arcAt_zero (poly : List Pt) (turns : ℕ) : arcAt poly turns 0 = 0 := by
  rw [arcAt]
  simp

theorem searchSorted_zero (poly : List Pt) (turns : ℕ) :
    searchSorted poly turns 0 = 0 := by
  rw [searchSorted, arcList, show (1000:ℕ) = 999 + 1 from rfl,
    List.range_succ_eq_map, List.map_cons, List.takeWhile_cons_of_neg]
  · rfl
  · simp [arcAt_zero]

theorem spiralIdxs_one (poly : List Pt) (turns : ℕ) :
    spiralIdxs poly turns 1 = [0] := by
  rw [spiralIdxs, linspaceR_one]
  simp [searchSorted_zero]

theorem arcAt_mono (poly : List Pt) (turns : ℕ) {k m : ℕ} (h : k ≤ m) :
    arcAt poly turns k ≤ arcAt poly turns m := by
  rw [arcAt, arcAt]
  exact Finset.sum_le_sum_of_subset_of_nonneg (Finset.range_subset.2 h)
    fun i _ _ => segLen_nonneg poly turns i

theorem segLen_sq100_998_pos : 0 < segLen sq100 4 998 := by
  have hπ := Real.pi_gt_d6
  have hW : (bbWidth sq100 : ℝ) = 101 := by
    norm_num [show bbWidth sq100 = 101 from by decide]
  have hr : rawX 4 998 < rawX 4 999 := by
    rw [rawX_999]
    have h1 : rawX 4 998 ≤ thetaAt 4 998 := by
      rw [rawX]
      nlinarith [Real.cos_le_one (thetaAt 4 998), thetaAt_nonneg 4 998]
    have h2 : thetaAt 4 998 < 4 * Real.pi := by
      rw [thetaAt]
      push_cast
      nlinarith [Real.pi_pos]
    linarith
  have ha : 0 < normX sq100 4 999 - normX sq100 4 998 := by
    rw [normX_sub, hW]
    exact mul_pos (div_pos (by linarith) rangeX4_pos) (by norm_num)
  calc 0 < normX sq100 4 999 - normX sq100 4 998 := ha
  _ ≤ |normX sq100 4 999 - normX sq100 4 998| := le_abs_self _
  _ ≤ segLen sq100 4 998 := abs_dx_le_segLen sq100 4 998

theorem arcAt_sq100_lt_total (k : ℕ) (hk : k ≤ 998) :
    arcAt sq100 4 k < totalLen sq100 4 := by
  have h1 := arcAt_mono sq100 4 hk
  have h2 : arcAt sq100 4 999 = arcAt sq100 4 998 + segLen sq100 4 998 := by
    rw [arcAt, arcAt, Finset.sum_range_succ]
  have h3 := segLen_sq100_998_pos
  rw [totalLen, h2]
  linarith

theorem takeWhile_append_singleton {α : Type} (p : α → Bool) :
    ∀ (l1 : List α) (x : α), (∀ a ∈ l1, p a = true) → p x = false →
      List.takeWhile p (l1 ++ [x]) = l1 := by
  intro l1
  induction l1 with
  | nil =>
    intro x _ hx
    simp only [List.nil_append]
    rw [List.takeWhile_cons_of_neg (by simp [hx])]
  | cons a t ih =>
    intro x hall hx
    rw [List.cons_append,
      List.takeWhile_cons_of_pos (hall a (List.mem_cons_self a t)),
      ih x (fun b hb => hall b (List.mem_cons_of_mem a hb)) hx]

theorem searchSorted_total_sq100 :
    searchSorted sq100 4 (totalLen sq100 4) = 999 := by
  rw [searchSorted, arcList, show (1000:ℕ) = 999 + 1 from rfl,
    List.range_succ, List.map_append, List.map_singleton,
    takeWhile_append_singleton]
  · simp
  · intro a ha
    obtain ⟨k, hk, rfl⟩ := List.mem_map.1 ha
    have hk2 : k ≤ 998 := by
      have := List.mem_range.1 hk
      omega
    simp [arcAt_sq100_lt_total k hk2]
  · simp [totalLen]

theorem mem_sqSpiralIdxs_999 : (999 : ℕ) ∈ sqSpiralIdxs := by
  have h49 : (49 : ℕ) ∈ List.range 50 := List.mem_range.2 (by norm_num)
  have h2 : (totalLen sq100 4 * ((49 : ℕ) : ℝ) / ((50 - 1 : ℕ) : ℝ)) ∈
      List.map (fun k : ℕ => totalLen sq100 4 * (k : ℝ) / ((50 - 1 : ℕ) : ℝ))
        (List.range 50) :=
    List.mem_map_of_mem _ h49
  have hval : totalLen sq100 4 * ((49 : ℕ) : ℝ) / ((50 - 1 : ℕ) : ℝ) =
      totalLen sq100 4 := by
    norm_num
  rw [hval] at h2
  have h3 := List.mem_map_of_mem (searchSorted sq100 4) h2
  rw [searchSorted_total_sq100] at h3
  rw [sqSpiralIdxs, spiralIdxs, linspaceR]
  exact h3

theorem sqSpiralIdxs_length : sqSpiralIdxs.length = 50 := by
  rw [sqSpiralIdxs, spiralIdxs, linspaceR]
  simp only [List.length_map, List.length_range]

theorem contains_sq100_pt999 :
    containsPoint sq100 (spiralPt sq100 4 999) = false := by
  have hRx := rangeX4_pos
  rw [xMax4_eq] at hRx
  have hx : normX sq100 4 999 = 101 := by
    rw [normX, rawX_999, xMax4_eq, div_self (ne_of_gt hRx), one_mul]
    norm_num [show bbWidth sq100 = 101 from by decide]
  have hpt : (spiralPt sq100 4 999).1 = 101 := by
    rw [spiralPt]
    simp only
    rw [hx, show bbLeft sq100 = 0 from by decide, add_zero, pyInt,
      if_pos (by norm_num : (0:ℝ) ≤ 101)]
    rw [show ((101:ℝ)) = ((101:ℤ):ℝ) from by norm_num, Int.floor_intCast]
  by_contra hcon
  rw [Bool.not_eq_false, containsPoint_sq100_iff] at hcon
  rw [hpt] at hcon
  omega

/-- Shared counting argument: at most 49 of the 50 selected indices can
contribute an ablation point, because the arc-length endpoint always selects
sample 999, whose point lies on the excluded right edge of the box. -/
theorem sqSpiralAbl_length_le : sqSpiralAbl.length ≤ 49 := by
  rw [sqSpiralAbl, List.length_map]
  have hnd : ((List.range 1000).filter
      (fun i => sqSpiralIdxs.contains i &&
        containsPoint sq100 (spiralPt sq100 4 i))).Nodup :=
    (List.nodup_range 1000).filter _
  have hsub : ((List.range 1000).filter
      (fun i => sqSpiralIdxs.contains i &&
        containsPoint sq100 (spiralPt sq100 4 i))).toFinset ⊆
      sqSpiralIdxs.toFinset.erase 999 := by
    intro i hi
    rw [List.mem_toFinset] at hi
    have hmem := List.mem_filter.1 hi
    have hPi := (Bool.and_eq_true _ _).mp hmem.2
    have hidx : i ∈ sqSpiralIdxs := by
      have := hPi.1
      simpa [List.contains_iff_exists_mem_beq, beq_iff_eq] using this
    have hne : i ≠ 999 := by
      intro hi999
      rw [hi999] at hPi
      exact absurd hPi.2 (by rw [contains_sq100_pt999]; simp)
    exact Finset.mem_erase.2 ⟨hne, List.mem_toFinset.2 hidx⟩
  have h1 := (List.toFinset_card_of_nodup hnd).symm
  have h2 := Finset.card_le_card hsub
  have h3 := Finset.card_erase_of_mem (List.mem_toFinset.2 mem_sqSpiralIdxs_999)
  have h4 : sqSpiralIdxs.toFinset.card ≤ 50 := by
    have h5 := List.toFinset_card_le (l := sqSpiralIdxs)
    rwa [sqSpiralIdxs_length] at h5
  omega

theorem turnsLoop_sq100_eq : turnsLoop (maxRadiusQ sq100) 5 1 4 = some 4 := by
  have hmr : maxRadiusQ sq100 = 101 / 2 := by
    have hw : bbWidth sq100 = 101 := by decide
    have hh2 : bbHeight sq100 = 101 := by decide
    rw [maxRadiusQ, hw, hh2]
    norm_num
  rw [hmr, turnsLoop]
  norm_num

theorem spiralCore_sq100_eq :
    spiralCore sq100 4 50 = .ok (sqSpiralAbl, sqSpiralPat, []) := by
  have hgt : ¬ (50:ℤ) > maxNumPts sq100 4 := not_lt.2 maxNumPts_sq100_ge
  simp only [spiralCore]
  rw [if_neg hgt, if_neg hgt, if_neg (show ¬ (50:ℤ) < 0 by norm_num)]
  rfl

theorem pattern_spiral_sq100_eq :
    pattern_spiral sq100 (some 50) 1 = some (.ok (sqSpiralAbl, sqSpiralPat, [])) := by
  rw [pattern_spiral, turnsLoop_sq100_eq]
  show some (spiralCore sq100 4 50) = _
  rw [spiralCore_sq100_eq]

/-- C8 (counterexample): on the 100×100 square with `num_points = 50` the
geometric maximum is at least 50, yet the spiral emits FEWER than 50
ablation points: the claimed exact count of 50 is wrong. -/
theorem sq100_spiral_count_short :
    (50 : ℤ) ≤ maxNumPts sq100 4 ∧ sqSpiralAbl.length < 50 := by
  refine ⟨maxNumPts_sq100_ge, ?_⟩
  have := sqSpiralAbl_length_le
  omega

/-- C8 (amended): on the 100×100 square with `num_points = 50` (which does
not exceed `max_num_points`), the spiral emits at most 49 ablation points:
the final arc-length target always selects sample 999, whose normalised
point sits at `x = left + width`, outside the square by the even-odd rule,
so it is clipped; every emitted point does lie inside the square. -/
theorem sq100_spiral_output_clipped :
    sqSpiralAbl.length ≤ 49 ∧
      sqSpiralAbl.all (containsPoint sq100) = true ∧
      (999 : ℕ) ∈ sqSpiralIdxs ∧
      containsPoint sq100 (spiralPt sq100 4 999) = false := by
  refine ⟨sqSpiralAbl_length_le, ?_, mem_sqSpiralIdxs_999, contains_sq100_pt999⟩
  rw [List.all_eq_true]
  intro q hq
  rw [sqSpiralAbl] at hq
  obtain ⟨i, hi, rfl⟩ := List.mem_map.1 hq
  exact ((Bool.and_eq_true _ _).mp (List.mem_filter.1 hi).2).2

theorem turnsLoop_bigSq_eq : turnsLoop (maxRadiusQ bigSq) 5 1 4 = some 4 := by
  have hmr : maxRadiusQ bigSq = 1000001 / 2 := by
    have hw : bbWidth bigSq = 1000001 := by decide
    have hh2 : bbHeight bigSq = 1000001 := by decide
    rw [maxRadiusQ, hw, hh2]
    norm_num
  rw [hmr, turnsLoop]
  norm_num

theorem spiralCore_bigSq_eq :
    spiralCore bigSq 4 1 = .ok (bigSpiralAbl, bigSpiralPat, []) := by
  have hgt : ¬ (1:ℤ) > maxNumPts bigSq 4 := not_lt.2 maxNumPts_bigSq_ge
  simp only [spiralCore]
  rw [if_neg hgt, if_neg hgt, if_neg (show ¬ (1:ℤ) < 0 by norm_num),
    show ((1:ℤ)).toNat = 1 from rfl, spiralIdxs_one]
  rfl

theorem pattern_spiral_bigSq_eq :
    pattern_spiral bigSq (some 1) 1 = some (.ok (bigSpiralAbl, bigSpiralPat, [])) := by
  rw [pattern_spiral, turnsLoop_bigSq_eq]
  show some (spiralCore bigSq 4 1) = _
  rw [spiralCore_bigSq_eq]

theorem mem_bigSpiralPat_125 : spiralPt bigSq 4 125 ∈ bigSpiralPat := by
  rw [bigSpiralPat]
  refine List.mem_map.2 ⟨125, ?_, rfl⟩
  refine List.mem_filter.2 ⟨List.mem_range.2 (by norm_num), ?_⟩
  rw [contains_bigSq_pt125]
  decide

theorem bigSpiralPat_ne_nil : bigSpiralPat ≠ [] := by
  intro h
  have h2 := mem_bigSpiralPat_125
  rw [h] at h2
  exact List.not_mem_nil _ h2

/-- C5 (counterexample): applying the spiral pattern twice in succession on
the 10^6 square with `num_points = 1` does not equal applying it once: the
GUI clears only `ablation_points` before a spiral apply, so the nonempty
`pattern_points` contribution accumulates. -/
theorem spiral_apply_accumulates :
    stepSpiral bigSq (some 1) 1 (stepSpiral bigSq (some 1) 1
        (some ⟨[], []⟩)) ≠
      stepSpiral bigSq (some 1) 1 (some ⟨[], []⟩) := by
  have happ : ∀ s : PhotomState, onApplySpiral bigSq (some 1) 1 s =
      some (.ok ⟨s.pattern_points ++ bigSpiralPat, bigSpiralAbl⟩) := by
    intro s
    rw [onApplySpiral, pattern_spiral_bigSq_eq]
  have h1 : stepSpiral bigSq (some 1) 1 (some ⟨[], []⟩) =
      some ⟨bigSpiralPat, bigSpiralAbl⟩ := by
    rw [stepSpiral, Option.bind, happ]
    rfl
  rw [h1, stepSpiral, Option.bind, happ]
  intro heq
  simp only [Option.some.injEq, PhotomState.mk.injEq] at heq
  have hlen := congrArg List.length heq.1
  rw [List.length_append] at hlen
  have : bigSpiralPat.length = 0 := by omega
  exact bigSpiralPat_ne_nil (List.length_eq_zero.1 this)

/-- C5 (amended): the bidirectional branch of `onApplyPatternClick` is
idempotent (it clears both output lists and regenerates them from the
polygon and parameters alone); the spiral branch rebuilds `ablation_points`
from scratch but only appends to `pattern_points`, so repeated applies
accumulate the pattern-point contribution instead of being idempotent. -/
theorem apply_pattern_idempotence_split :
    (∀ (poly : List Pt) (v h : ℤ) (n : Option ℤ) (fuel : ℕ)
        (s s2 : PhotomState),
        onApplyBidirectional poly v h n fuel s = some s2 →
        onApplyBidirectional poly v h n fuel s2 = some s2) ∧
    (∀ (poly : List Pt) (n : Option ℤ) (fuel : ℕ) (s : PhotomState)
        (abl pat : List Pt) (w : List String),
        pattern_spiral poly n fuel = some (.ok (abl, pat, w)) →
        onApplySpiral poly n fuel s =
          some (.ok ⟨s.pattern_points ++ pat, abl⟩)) := by
  constructor
  · intro poly v h n fuel s s2 h1
    exact h1
  · intro poly n fuel s abl pat w h1
    rw [onApplySpiral, h1]

/-- Witness for C5 (amended): a second bidirectional apply on the 100×100
square reproduces the state it starts from, and a spiral apply on the 10^6
square appends its pattern contribution to the existing `pattern_points`. -/
theorem apply_pattern_idempotence_split_witness :
    onApplyBidirectional sq100 10 10 none 2000 ⟨[], sqAblLit⟩ =
        some ⟨[], sqAblLit⟩ ∧
      onApplySpiral bigSq (some 1) 1 ⟨[], []⟩ =
        some (.ok ⟨bigSpiralPat, bigSpiralAbl⟩) := by
  constructor
  · refine apply_pattern_idempotence_split.1 sq100 10 10 none 2000 ⟨[], []⟩ _ ?_
    rw [onApplyBidirectional,
      show pattern_bidirectional sq100 10 10 none [] 2000 =
        some (sqAblLit, []) from sqRun_eq]
    rfl
  · have h2 := apply_pattern_idempotence_split.2 bigSq (some 1) 1 ⟨[], []⟩
      bigSpiralAbl bigSpiralPat [] pattern_spiral_bigSq_eq
    simpa using h2

/-- Witness for C1 (amended): the uncontained point `(15, 15)` emitted on
the U-shaped polygon is exactly the bounding-box midpoint exception, and
the spiral pattern point of sample 125 on the 10^6 square passes the
containment test. -/
theorem containment_with_seed_exception_witness :
    (((15:ℤ), (15:ℤ)) ∈ ([] : List Pt) ∨
        ((15:ℤ), (15:ℤ)) = bbCenter uPoly ∨
        containsPoint uPoly (15, 15) = true) ∧
      containsPoint bigSq (spiralPt bigSq 4 125) = true := by
  constructor
  · exact containment_with_seed_exception.1 uPoly 5 5 none [] 2000 uAblLit []
      uRun_eq (15, 15) (by decide)
  · exact containment_with_seed_exception.2 bigSq 4 1 bigSpiralAbl
      bigSpiralPat [] spiralCore_bigSq_eq (spiralPt bigSq 4 125)
      (List.mem_append.2 (Or.inr mem_bigSpiralPat_125))
